import Mathlib

/- Shallow embedding of the mcp-authentik tool registry and dispatch framework.

   Sources embedded here:
   - src/core/tools.ts       (registerTool, the execution shim)
   - src/core/errors.ts      (sanitizeMessage, sanitizeError)
   - src/core/config.ts      (normalizeUrl, parseAccessTier, parseCategories, loadConfig)
   - src/tools/stages.ts, src/tools/providers.ts, src/tools/policies.ts,
     src/tools/sources.ts, src/tools/property-mappings.ts
                             (the five by-type dispatch tables and their handlers)

   JavaScript strings are modelled as lists of characters (Str).  Asynchronous
   handlers are modelled as pure functions returning an outcome (resolution
   with a string, or rejection with a thrown value).  The protocol server is
   modelled as the list of tools registered so far. -/

abbrev Str := List Char

/-- AccessTier from src/types/index.ts: two-valued safety classification. -/
inductive AccessTier where
  | readOnly
  | full
  deriving DecidableEq, Repr

/-- Transport from src/types/index.ts. -/
inductive Transport where
  | stdio
  | http
  deriving DecidableEq, Repr

/-- AppConfig from src/types/index.ts. -/
structure AppConfig where
  url : Str
  token : Str
  accessTier : AccessTier
  categories : Option (List String)
  transport : Transport
  httpPort : Nat
  httpHost : Str

/-- JSON / JavaScript values, used for thrown values and parsed error bodies. -/
inductive Json where
  | jnull
  | jbool (b : Bool)
  | jnum (n : Int)
  | jstr (s : Str)
  | jarr (elems : List Json)
  | jobj (fields : List (Str × Json))

/-- Outcome of awaiting error.response.json() in sanitizeError. -/
inductive BodyOutcome where
  | parsed (j : Json)
  | failed

/-- The failure shapes distinguished by sanitizeError (src/core/errors.ts):
    ResponseError (structured backend error), FetchError (transport failure),
    Error (generic failure), and any non-Error throwable. -/
inductive ThrownValue where
  | responseError (status : Nat) (statusText : Str) (body : BodyOutcome)
  | fetchError (causeMessage : Option Str)
  | jsError (message : Str)
  | nonError (value : Json)

/-- Resolution or rejection of a tool handler promise. -/
inductive HandlerOutcome where
  | success (s : Str)
  | failure (e : ThrownValue)

abbrev Args := List (String × Json)

/- ── Redaction (src/core/errors.ts, sanitizeMessage) ─────────────────────── -/

/-- The characters matched by the regex class backslash-s on ASCII input. -/
def isJsWhitespace (c : Char) : Bool :=
  c == ' ' || c == '\t' || c == '\n' || c == '\r' || c == '\x0b' || c == '\x0c'

/-- Generic left-to-right single-pass scan-and-replace, the common shape of
    String.prototype.replaceAll with a literal pattern and of a global regex
    replace: at each position, if the matcher fires (consuming at least one
    character) emit the replacement and resume after the match, otherwise
    keep the character.  The recursion is driven by a fuel counter that the
    wrapper below seeds with the string length, which the scan never
    exhausts because every fired match consumes at least one character. -/
def scanReplFuel (m : Str → Option Nat) (repl : Str) : Nat → Str → Str
  | _, [] => []
  | 0, s => s
  | fuel + 1, c :: rest =>
    match m (c :: rest) with
    | some (n + 1) => repl ++ scanReplFuel m repl fuel (List.drop n rest)
    | _ => c :: scanReplFuel m repl fuel rest

def scanRepl (m : Str → Option Nat) (repl : Str) (s : Str) : Str :=
  scanReplFuel m repl s.length s

/-- Matcher for a literal (non-empty) pattern, as used by replaceAll. -/
def litMatch (pat : Str) (s : Str) : Option Nat :=
  if pat ≠ [] ∧ pat.isPrefixOf s then some pat.length else none

/-- message.replaceAll(pat, repl) for a literal pattern. -/
def replaceAllLit (pat repl s : Str) : Str := scanRepl (litMatch pat) repl s

/-- Case-insensitive literal word test at the head of a string. -/
def ciHasPrefixWord : Str → Str → Bool
  | [], _ => true
  | _ :: _, [] => false
  | p :: ps, c :: cs => (c.toLower == p.toLower) && ciHasPrefixWord ps cs

def bearerWord : Str := "bearer".data

def authorizationWord : Str := "authorization:".data

/-- Matcher for the regex Bearer backslash-s+ backslash-S+ (case-insensitive):
    the literal word, then a maximal non-empty whitespace run, then a maximal
    non-empty non-whitespace run. -/
def bearerMatch (s : Str) : Option Nat :=
  if ciHasPrefixWord bearerWord s then
    let afterWord := List.drop bearerWord.length s
    let w := (afterWord.takeWhile isJsWhitespace).length
    let afterWs := List.drop w afterWord
    let n := (afterWs.takeWhile (fun c => !(isJsWhitespace c))).length
    if 1 ≤ w ∧ 1 ≤ n then some (bearerWord.length + w + n) else none
  else none

/-- Matcher for the regex Authorization: backslash-s* backslash-S+
    (case-insensitive). -/
def authMatch (s : Str) : Option Nat :=
  if ciHasPrefixWord authorizationWord s then
    let afterWord := List.drop authorizationWord.length s
    let w := (afterWord.takeWhile isJsWhitespace).length
    let afterWs := List.drop w afterWord
    let n := (afterWs.takeWhile (fun c => !(isJsWhitespace c))).length
    if 1 ≤ n then some (authorizationWord.length + w + n) else none
  else none

def redactedMarker : Str := "[REDACTED]".data

def urlMarker : Str := "[AUTHENTIK_URL]".data

def bearerRepl : Str := "Bearer [REDACTED]".data

def authRepl : Str := "Authorization: [REDACTED]".data

/-- sanitizeMessage from src/core/errors.ts: scrub the configured token, the
    configured base URL, then bearer-token and authorization-header patterns. -/
def sanitizeMessage (message : Str) (config : AppConfig) : Str :=
  let s1 := if config.token ≠ [] then replaceAllLit config.token redactedMarker message
            else message
  let s2 := if config.url ≠ [] then replaceAllLit config.url urlMarker s1
            else s1
  let s3 := scanRepl bearerMatch bearerRepl s2
  scanRepl authMatch authRepl s3

/- ── sanitizeError (src/core/errors.ts) ──────────────────────────────────── -/

/-- JavaScript template-literal rendering of a value, String(v). -/
def jsTemplate : Json → Str
  | .jnull => "null".data
  | .jbool true => "true".data
  | .jbool false => "false".data
  | .jnum n => (toString n).data
  | .jstr s => s
  | .jarr _ => "".data
  | .jobj _ => "[object Object]".data

/-- Array.prototype.join(sep) over already-rendered pieces. -/
def joinSep (sep : Str) : List Str → Str
  | [] => []
  | [x] => x
  | x :: rest => x ++ sep ++ joinSep sep rest

/-- Array.prototype.join element rendering: null renders as the empty string,
    everything else as in a template literal (arrays joined at top level only,
    which is the only depth the error bodies in scope exercise). -/
def jsJoinElem : Json → Str
  | .jnull => []
  | j => jsTemplate j

/-- Array.prototype.join(sep). -/
def jsJoinWith (sep : Str) : List Json → Str
  | [] => []
  | [e] => jsJoinElem e
  | e :: rest => jsJoinElem e ++ sep ++ jsJoinWith sep rest

def openBrace : Char := Char.ofNat 123

def closeBrace : Char := Char.ofNat 125

/-- Minimal escaping of JSON.stringify for string payloads. -/
def escapeJsonChar (c : Char) : Str :=
  if c = '"' then ['\\', '"']
  else if c = '\\' then ['\\', '\\']
  else if c = '\n' then ['\\', 'n']
  else if c = '\t' then ['\\', 't']
  else if c = '\r' then ['\\', 'r']
  else [c]

mutual

/-- JSON.stringify(v), used by sanitizeError for nested object field values. -/
def jsonStringify : Json → Str
  | .jnull => "null".data
  | .jbool true => "true".data
  | .jbool false => "false".data
  | .jnum n => (toString n).data
  | .jstr s => ['"'] ++ (s.map escapeJsonChar).flatten ++ ['"']
  | .jarr es => ['['] ++ jsonStringifyList es ++ [']']
  | .jobj fs => [openBrace] ++ jsonStringifyFields fs ++ [closeBrace]

def jsonStringifyList : List Json → Str
  | [] => []
  | [e] => jsonStringify e
  | e :: rest => jsonStringify e ++ [','] ++ jsonStringifyList rest

def jsonStringifyFields : List (Str × Json) → Str
  | [] => []
  | [(k, v)] => ['"'] ++ (k.map escapeJsonChar).flatten ++ ['"', ':'] ++ jsonStringify v
  | (k, v) :: rest =>
    ['"'] ++ (k.map escapeJsonChar).flatten ++ ['"', ':'] ++ jsonStringify v ++ [','] ++
      jsonStringifyFields rest

end

/-- One entry of the details string: Object.entries(body).map callback in
    sanitizeError.  Arrays join with comma-space; non-null objects are
    JSON.stringify-ed; everything else renders as a template literal. -/
def renderEntry : Str × Json → Str
  | (key, .jarr vals) => key ++ ": ".data ++ jsJoinWith ", ".data vals
  | (key, .jobj fs) => key ++ ": ".data ++ jsonStringify (.jobj fs)
  | (key, v) => key ++ ": ".data ++ jsTemplate v

/-- Object.entries of a parsed JSON body when the JavaScript test
    typeof body === object and body !== null succeeds: object fields, or,
    for an array, index-keyed entries.  Returns none for primitives/null. -/
def enumPairsFrom : Nat → List Json → List (Str × Json)
  | _, [] => []
  | i, e :: rest => ((toString i).data, e) :: enumPairsFrom (i + 1) rest

def objEntries : Json → Option (List (Str × Json))
  | .jobj fs => some fs
  | .jarr es => some (enumPairsFrom 0 es)
  | _ => none

def statusLine (status : Nat) (statusText : Str) : Str :=
  (toString status).data ++ [' '] ++ statusText

/-- Claim-scope restriction on body field values: scalars, null, or arrays of
    strings, the shapes the specification's rendering sentence describes. -/
def claimScopeValue : Json → Bool
  | .jstr _ => true
  | .jnum _ => true
  | .jbool _ => true
  | .jnull => true
  | .jarr es => es.all (fun e => match e with | .jstr _ => true | _ => false)
  | .jobj _ => false

/-- Modelled from the spec: one field rendered as field-name, colon-space,
    then the value or the comma-joined list. -/
def specFieldRender : Str × Json → Str
  | (k, .jarr vs) =>
    k ++ ": ".data ++
      joinSep ", ".data (vs.map (fun v => match v with | .jstr s => s | _ => []))
  | (k, v) => k ++ ": ".data ++ jsTemplate v

/-- Modelled from the spec: the structured-backend rendering
    status, space, statusText, colon-space, fields joined by semicolon-space. -/
def specRenderBackend (status : Nat) (statusText : Str)
    (fields : List (Str × Json)) : Str :=
  (toString status).data ++ [' '] ++ statusText ++ ": ".data ++
    joinSep "; ".data (fields.map specFieldRender)

/-- sanitizeError from src/core/errors.ts. -/
def sanitizeError (error : ThrownValue) (config : AppConfig) : Str :=
  match error with
  | .responseError status statusText body =>
    match body with
    | .parsed j =>
      match objEntries j with
      | some entries =>
        sanitizeMessage
          (statusLine status statusText ++ ": ".data ++
            joinSep "; ".data (entries.map renderEntry)) config
      | none => sanitizeMessage (statusLine status statusText) config
    | .failed => sanitizeMessage (statusLine status statusText) config
  | .fetchError cause => sanitizeMessage (cause.getD "Unknown fetch error".data) config
  | .jsError msg => sanitizeMessage msg config
  | .nonError _ => "An unknown error occurred".data

/- ── registerTool (src/core/tools.ts) ────────────────────────────────────── -/

/-- A CallToolResult produced by the execution shim: text content items plus
    the error flag (absent on the success path, modelled as false). -/
structure CallToolResult where
  content : List Str
  isError : Bool
  deriving DecidableEq, Repr

/-- The error-wrapping execution shim that registerTool installs around every
    handler (src/core/tools.ts lines 55-67). -/
def runWrappedHandler (config : AppConfig) (outcome : HandlerOutcome) : CallToolResult :=
  match outcome with
  | .success s => { content := [s], isError := false }
  | .failure e => { content := ["Error: ".data ++ sanitizeError e config], isError := true }

/-- Caller-supplied annotation overrides: the optional annotations object in
    ToolRegistrationOptions, spread over the derived hints. -/
structure AnnotationOverrides where
  readOnlyHint : Option Bool
  destructiveHint : Option Bool
  deriving DecidableEq, Repr

/-- The protocol-visible annotations actually registered. -/
structure ToolAnnotations where
  readOnlyHint : Bool
  destructiveHint : Bool
  deriving DecidableEq, Repr

/-- ToolRegistrationOptions from src/core/tools.ts. -/
structure ToolRegistrationOptions where
  name : String
  description : String
  accessTier : AccessTier
  category : String
  annotations : Option AnnotationOverrides
  tags : Option (List String)
  hasInputSchema : Bool
  handler : Args → HandlerOutcome

/-- The annotations object built by registerTool: derived hints, with the
    object spread of options.annotations overriding any field it carries. -/
def buildAnnotations (options : ToolRegistrationOptions) : ToolAnnotations :=
  let base : ToolAnnotations :=
    { readOnlyHint := options.accessTier == .readOnly
      destructiveHint := (options.tags.getD []).contains "destructive" }
  match options.annotations with
  | none => base
  | some ov =>
    { readOnlyHint := ov.readOnlyHint.getD base.readOnlyHint
      destructiveHint := ov.destructiveHint.getD base.destructiveHint }

/-- A tool held by the protocol server after registration. -/
structure RegisteredTool where
  name : String
  description : String
  hasInputSchema : Bool
  annotations : ToolAnnotations
  handler : Args → CallToolResult

def mkRegisteredTool (config : AppConfig) (options : ToolRegistrationOptions) :
    RegisteredTool :=
  { name := options.name
    description := options.description
    hasInputSchema := options.hasInputSchema
    annotations := buildAnnotations options
    handler := fun args => runWrappedHandler config (options.handler args) }

/-- registerTool from src/core/tools.ts: tier gate, category filter, then one
    registration call against the protocol server (modelled as appending to
    the list of registered tools). -/
def registerTool (server : List RegisteredTool) (config : AppConfig)
    (options : ToolRegistrationOptions) : Bool × List RegisteredTool :=
  if config.accessTier == .readOnly && options.accessTier == .full then
    (false, server)
  else if (config.categories.map (fun cats => !(cats.contains options.category))).getD false then
    (false, server)
  else
    (true, server ++ [mkRegisteredTool config options])

/- ── By-type dispatch tables ─────────────────────────────────────────────── -/

/-- The five operation kinds a by-type tool dispatches, with the SDK
    method-name suffix each one composes. -/
inductive OpKind where
  | list
  | retrieve
  | create
  | partialUpdate
  | destroy
  deriving DecidableEq, Repr

def opSuffix : OpKind → String
  | .list => "List"
  | .retrieve => "Retrieve"
  | .create => "Create"
  | .partialUpdate => "PartialUpdate"
  | .destroy => "Destroy"

def allOpKinds : List OpKind := [.list, .retrieve, .create, .partialUpdate, .destroy]

/-- Outcome of the dispatch portion of a by-type handler: either a backend
    call is issued (method name, plus the request-body key for create/update),
    or the handler throws before any backend call is made. -/
inductive DispatchOutcome where
  | backendCall (methodName : String) (bodyKey : Option String)
  | errorBeforeCall (message : Str)
  deriving DecidableEq, Repr

/-- The message of the JavaScript TypeError raised when indexing a client
    facet with a method name it does not have and calling the result, e.g.
    client.providersApi[method] when method is providersundefinedCreate. -/
def notAFunctionMsg (facet : String) : Str :=
  ("client." ++ facet ++ "[method] is not a function").data

/-- Rendering of the JavaScript undefined value inside a template literal,
    which is what an out-of-table lookup produces in the unguarded families. -/
def jsUndefined : String := "undefined"

/- Providers family (src/tools/providers.ts): PROVIDER_TYPE_SDK_PREFIX,
   PROVIDER_TYPE_REQUEST_KEY, PROVIDER_TYPE_PATCHED_KEY. -/

def providerSdkFragment : List (String × String) :=
  [("oauth2", "Oauth2"), ("saml", "Saml"), ("ldap", "Ldap"), ("proxy", "Proxy"),
   ("radius", "Radius"), ("scim", "Scim"), ("rac", "Rac"),
   ("google_workspace", "GoogleWorkspace"), ("microsoft_entra", "MicrosoftEntra")]

def providerRequestKey : List (String × String) :=
  [("oauth2", "oAuth2ProviderRequest"), ("saml", "sAMLProviderRequest"),
   ("ldap", "lDAPProviderRequest"), ("proxy", "proxyProviderRequest"),
   ("radius", "radiusProviderRequest"), ("scim", "sCIMProviderRequest"),
   ("rac", "rACProviderRequest"), ("google_workspace", "googleWorkspaceProviderRequest"),
   ("microsoft_entra", "microsoftEntraProviderRequest")]

def providerPatchedKey : List (String × String) :=
  [("oauth2", "patchedOAuth2ProviderRequest"), ("saml", "patchedSAMLProviderRequest"),
   ("ldap", "patchedLDAPProviderRequest"), ("proxy", "patchedProxyProviderRequest"),
   ("radius", "patchedRadiusProviderRequest"), ("scim", "patchedSCIMProviderRequest"),
   ("rac", "patchedRACProviderRequest"),
   ("google_workspace", "patchedGoogleWorkspaceProviderRequest"),
   ("microsoft_entra", "patchedMicrosoftEntraProviderRequest")]

/- Stages family (src/tools/stages.ts). -/

def stageSdkFragment : List (String × String) :=
  [("authenticator_duo", "AuthenticatorDuo"), ("authenticator_email", "AuthenticatorEmail"),
   ("authenticator_endpoint_gdtc", "AuthenticatorEndpointGdtc"),
   ("authenticator_sms", "AuthenticatorSms"), ("authenticator_static", "AuthenticatorStatic"),
   ("authenticator_totp", "AuthenticatorTotp"),
   ("authenticator_validate", "AuthenticatorValidate"),
   ("authenticator_webauthn", "AuthenticatorWebauthn"),
   ("captcha", "Captcha"), ("consent", "Consent"), ("deny", "Deny"), ("dummy", "Dummy"),
   ("email", "Email"), ("identification", "Identification"),
   ("invitation", "InvitationStages"), ("mtls", "Mtls"), ("password", "Password"),
   ("prompt", "PromptStages"), ("redirect", "Redirect"), ("source", "Source"),
   ("user_delete", "UserDelete"), ("user_login", "UserLogin"),
   ("user_logout", "UserLogout"), ("user_write", "UserWrite")]

def stageRequestKey : List (String × String) :=
  [("authenticator_duo", "authenticatorDuoStageRequest"),
   ("authenticator_email", "authenticatorEmailStageRequest"),
   ("authenticator_endpoint_gdtc", "authenticatorEndpointGDTCStageRequest"),
   ("authenticator_sms", "authenticatorSMSStageRequest"),
   ("authenticator_static", "authenticatorStaticStageRequest"),
   ("authenticator_totp", "authenticatorTOTPStageRequest"),
   ("authenticator_validate", "authenticatorValidateStageRequest"),
   ("authenticator_webauthn", "authenticatorWebAuthnStageRequest"),
   ("captcha", "captchaStageRequest"), ("consent", "consentStageRequest"),
   ("deny", "denyStageRequest"), ("dummy", "dummyStageRequest"),
   ("email", "emailStageRequest"), ("identification", "identificationStageRequest"),
   ("invitation", "invitationStageRequest"), ("mtls", "mutualTLSStageRequest"),
   ("password", "passwordStageRequest"), ("prompt", "promptStageRequest"),
   ("redirect", "redirectStageRequest"), ("source", "sourceStageRequest"),
   ("user_delete", "userDeleteStageRequest"), ("user_login", "userLoginStageRequest"),
   ("user_logout", "userLogoutStageRequest"), ("user_write", "userWriteStageRequest")]

def stagePatchedKey : List (String × String) :=
  [("authenticator_duo", "patchedAuthenticatorDuoStageRequest"),
   ("authenticator_email", "patchedAuthenticatorEmailStageRequest"),
   ("authenticator_endpoint_gdtc", "patchedAuthenticatorEndpointGDTCStageRequest"),
   ("authenticator_sms", "patchedAuthenticatorSMSStageRequest"),
   ("authenticator_static", "patchedAuthenticatorStaticStageRequest"),
   ("authenticator_totp", "patchedAuthenticatorTOTPStageRequest"),
   ("authenticator_validate", "patchedAuthenticatorValidateStageRequest"),
   ("authenticator_webauthn", "patchedAuthenticatorWebAuthnStageRequest"),
   ("captcha", "patchedCaptchaStageRequest"), ("consent", "patchedConsentStageRequest"),
   ("deny", "patchedDenyStageRequest"), ("dummy", "patchedDummyStageRequest"),
   ("email", "patchedEmailStageRequest"),
   ("identification", "patchedIdentificationStageRequest"),
   ("invitation", "patchedInvitationStageRequest"), ("mtls", "patchedMutualTLSStageRequest"),
   ("password", "patchedPasswordStageRequest"), ("prompt", "patchedPromptStageRequest"),
   ("redirect", "patchedRedirectStageRequest"), ("source", "patchedSourceStageRequest"),
   ("user_delete", "patchedUserDeleteStageRequest"),
   ("user_login", "patchedUserLoginStageRequest"),
   ("user_logout", "patchedUserLogoutStageRequest"),
   ("user_write", "patchedUserWriteStageRequest")]

/- Policies family (src/tools/policies.ts). -/

def policySdkFragment : List (String × String) :=
  [("dummy", "Dummy"), ("event_matcher", "EventMatcher"), ("expression", "Expression"),
   ("geoip", "Geoip"), ("password", "Password"), ("password_expiry", "PasswordExpiry"),
   ("reputation", "Reputation"), ("unique_password", "UniquePassword")]

def policyRequestKey : List (String × String) :=
  [("dummy", "dummyPolicyRequest"), ("event_matcher", "eventMatcherPolicyRequest"),
   ("expression", "expressionPolicyRequest"), ("geoip", "geoIPPolicyRequest"),
   ("password", "passwordPolicyRequest"), ("password_expiry", "passwordExpiryPolicyRequest"),
   ("reputation", "reputationPolicyRequest"),
   ("unique_password", "uniquePasswordPolicyRequest")]

def policyPatchedKey : List (String × String) :=
  [("dummy", "patchedDummyPolicyRequest"),
   ("event_matcher", "patchedEventMatcherPolicyRequest"),
   ("expression", "patchedExpressionPolicyRequest"), ("geoip", "patchedGeoIPPolicyRequest"),
   ("password", "patchedPasswordPolicyRequest"),
   ("password_expiry", "patchedPasswordExpiryPolicyRequest"),
   ("reputation", "patchedReputationPolicyRequest"),
   ("unique_password", "patchedUniquePasswordPolicyRequest")]

/- Sources family (src/tools/sources.ts). -/

def sourceSdkFragment : List (String × String) :=
  [("oauth", "Oauth"), ("saml", "Saml"), ("ldap", "Ldap"), ("plex", "Plex"),
   ("kerberos", "Kerberos"), ("scim", "Scim")]

def sourceRequestKey : List (String × String) :=
  [("oauth", "oAuthSourceRequest"), ("saml", "sAMLSourceRequest"),
   ("ldap", "lDAPSourceRequest"), ("plex", "plexSourceRequest"),
   ("kerberos", "kerberosSourceRequest"), ("scim", "sCIMSourceRequest")]

def sourcePatchedKey : List (String × String) :=
  [("oauth", "patchedOAuthSourceRequest"), ("saml", "patchedSAMLSourceRequest"),
   ("ldap", "patchedLDAPSourceRequest"), ("plex", "patchedPlexSourceRequest"),
   ("kerberos", "patchedKerberosSourceRequest"), ("scim", "patchedSCIMSourceRequest")]

/- Property-mappings family (src/tools/property-mappings.ts). -/

def pmapSdkFragment : List (String × String) :=
  [("notification", "Notification"),
   ("provider_google_workspace", "ProviderGoogleWorkspace"),
   ("provider_microsoft_entra", "ProviderMicrosoftEntra"),
   ("provider_rac", "ProviderRac"), ("provider_radius", "ProviderRadius"),
   ("provider_saml", "ProviderSaml"), ("provider_scim", "ProviderScim"),
   ("provider_scope", "ProviderScope"), ("source_kerberos", "SourceKerberos"),
   ("source_ldap", "SourceLdap"), ("source_oauth", "SourceOauth"),
   ("source_plex", "SourcePlex"), ("source_saml", "SourceSaml"),
   ("source_scim", "SourceScim")]

def pmapRequestKey : List (String × String) :=
  [("notification", "notificationWebhookMappingRequest"),
   ("provider_google_workspace", "googleWorkspaceProviderMappingRequest"),
   ("provider_microsoft_entra", "microsoftEntraProviderMappingRequest"),
   ("provider_rac", "rACPropertyMappingRequest"),
   ("provider_radius", "radiusProviderPropertyMappingRequest"),
   ("provider_saml", "sAMLPropertyMappingRequest"),
   ("provider_scim", "sCIMMappingRequest"), ("provider_scope", "scopeMappingRequest"),
   ("source_kerberos", "kerberosSourcePropertyMappingRequest"),
   ("source_ldap", "lDAPSourcePropertyMappingRequest"),
   ("source_oauth", "oAuthSourcePropertyMappingRequest"),
   ("source_plex", "plexSourcePropertyMappingRequest"),
   ("source_saml", "sAMLSourcePropertyMappingRequest"),
   ("source_scim", "sCIMSourcePropertyMappingRequest")]

def pmapPatchedKey : List (String × String) :=
  [("notification", "patchedNotificationWebhookMappingRequest"),
   ("provider_google_workspace", "patchedGoogleWorkspaceProviderMappingRequest"),
   ("provider_microsoft_entra", "patchedMicrosoftEntraProviderMappingRequest"),
   ("provider_rac", "patchedRACPropertyMappingRequest"),
   ("provider_radius", "patchedRadiusProviderPropertyMappingRequest"),
   ("provider_saml", "patchedSAMLPropertyMappingRequest"),
   ("provider_scim", "patchedSCIMMappingRequest"),
   ("provider_scope", "patchedScopeMappingRequest"),
   ("source_kerberos", "patchedKerberosSourcePropertyMappingRequest"),
   ("source_ldap", "patchedLDAPSourcePropertyMappingRequest"),
   ("source_oauth", "patchedOAuthSourcePropertyMappingRequest"),
   ("source_plex", "patchedPlexSourcePropertyMappingRequest"),
   ("source_saml", "patchedSAMLSourcePropertyMappingRequest"),
   ("source_scim", "patchedSCIMSourcePropertyMappingRequest")]

/-- Object.keys(table).join(comma-space), as used in the two guarded families
    to build both the descriptions and the thrown error message. -/
def validTypesJoined (table : List (String × String)) : String :=
  String.intercalate ", " (table.map (fun e => e.1))

/-- The sources-family error message for an unknown discriminator
    (src/tools/sources.ts). -/
def invalidSourceMsg (t : String) : Str :=
  ("Invalid source_type \"" ++ t ++ "\". Valid types: " ++
    validTypesJoined sourceSdkFragment).data

/-- The property-mappings-family error message for an unknown discriminator
    (src/tools/property-mappings.ts). -/
def invalidPmapMsg (t : String) : Str :=
  ("Invalid mapping_type \"" ++ t ++ "\". Valid types: " ++
    validTypesJoined pmapSdkFragment).data

/-- The method names a family of by-type handlers can compose from its
    dispatch table; these are exactly the generated-client methods the
    handlers rely on. -/
def familyMethods (familyWord : String) (table : List (String × String)) : List String :=
  ((table.map (fun e =>
    allOpKinds.map (fun op => familyWord ++ e.2 ++ opSuffix op))).flatten)

/-- Dispatch of the guarded property-mappings by-type handlers: explicit
    table check that throws a descriptive error before any backend call. -/
def pmapDispatch (mappingType : String) (op : OpKind) : DispatchOutcome :=
  match pmapSdkFragment.lookup mappingType with
  | none => .errorBeforeCall (invalidPmapMsg mappingType)
  | some frag =>
    match op with
    | .create =>
      match pmapRequestKey.lookup mappingType with
      | none => .errorBeforeCall (invalidPmapMsg mappingType)
      | some k => .backendCall ("propertymappings" ++ frag ++ "Create") (some k)
    | .partialUpdate =>
      match pmapPatchedKey.lookup mappingType with
      | none => .errorBeforeCall (invalidPmapMsg mappingType)
      | some k => .backendCall ("propertymappings" ++ frag ++ "PartialUpdate") (some k)
    | _ => .backendCall ("propertymappings" ++ frag ++ opSuffix op) none

/-- Dispatch of the guarded sources by-type handlers. -/
def sourceDispatch (sourceType : String) (op : OpKind) : DispatchOutcome :=
  match sourceSdkFragment.lookup sourceType with
  | none => .errorBeforeCall (invalidSourceMsg sourceType)
  | some frag =>
    match op with
    | .create =>
      match sourceRequestKey.lookup sourceType with
      | none => .errorBeforeCall (invalidSourceMsg sourceType)
      | some k => .backendCall ("sources" ++ frag ++ "Create") (some k)
    | .partialUpdate =>
      match sourcePatchedKey.lookup sourceType with
      | none => .errorBeforeCall (invalidSourceMsg sourceType)
      | some k => .backendCall ("sources" ++ frag ++ "PartialUpdate") (some k)
    | _ => .backendCall ("sources" ++ frag ++ opSuffix op) none

/-- Dispatch of an unguarded by-type handler (stages, providers, policies):
    the table lookup is unchecked, so an out-of-table discriminator
    interpolates undefined into the method name; indexing the client facet
    with that name and calling it raises a TypeError, still before any
    backend call. -/
def unguardedDispatch (familyWord facet : String) (frags reqKeys patchKeys : List (String × String))
    (t : String) (op : OpKind) : DispatchOutcome :=
  let frag := (frags.lookup t).getD jsUndefined
  let method := familyWord ++ frag ++ opSuffix op
  if (familyMethods familyWord frags).contains method then
    .backendCall method
      (match op with
       | .create => reqKeys.lookup t
       | .partialUpdate => patchKeys.lookup t
       | _ => none)
  else
    .errorBeforeCall (notAFunctionMsg facet)

def providerDispatch (t : String) (op : OpKind) : DispatchOutcome :=
  unguardedDispatch "providers" "providersApi" providerSdkFragment providerRequestKey
    providerPatchedKey t op

def stageDispatch (t : String) (op : OpKind) : DispatchOutcome :=
  unguardedDispatch "stages" "stagesApi" stageSdkFragment stageRequestKey
    stagePatchedKey t op

def policyDispatch (t : String) (op : OpKind) : DispatchOutcome :=
  unguardedDispatch "policies" "policiesApi" policySdkFragment policyRequestKey
    policyPatchedKey t op

/- ── Configuration (src/core/config.ts) ──────────────────────────────────── -/

def stripTrailingSlashes (s : Str) : Str :=
  (s.reverse.dropWhile (fun c => c == '/')).reverse

def apiV3 : Str := "/api/v3".data

/-- The anchored regex replace of a partial /api or /api/v3 tail (greedy
    alternative first). -/
def removeApiPartial (s : Str) : Str :=
  if apiV3.isSuffixOf s then List.take (s.length - apiV3.length) s
  else if "/api".data.isSuffixOf s then List.take (s.length - 4) s
  else s

/-- normalizeUrl from src/core/config.ts: strip trailing slashes, then ensure
    the URL ends with /api/v3. -/
def normalizeUrl (url : Str) : Str :=
  let normalized := stripTrailingSlashes url
  if apiV3.isSuffixOf normalized then normalized
  else removeApiPartial normalized ++ apiV3

def parseAccessTier (value : Option String) : Except Str AccessTier :=
  match value with
  | none => .ok .full
  | some v =>
    if v = "" then .ok .full
    else if v = "read-only" then .ok .readOnly
    else if v = "full" then .ok .full
    else .error
      (("Invalid AUTHENTIK_ACCESS_TIER value: \"" ++ v ++
        "\". Must be \"read-only\" or \"full\".").data)

def parseCategories (value : Option String) : Option (List String) :=
  match value with
  | none => none
  | some v =>
    if v = "" then none
    else some (((v.splitOn ",").map (fun s => s.trim)).filter (fun s => s.length > 0))

def digitsToNat (ds : Str) : Nat := ds.foldl (fun acc c => acc * 10 + (c.toNat - 48)) 0

/-- JavaScript parseInt(s, 10): skip whitespace, optional sign, then the
    maximal run of decimal digits; NaN (none) when no digit is found. -/
def jsParseInt (s : Str) : Option Int :=
  let t := s.dropWhile isJsWhitespace
  let signAndRest : Int × Str :=
    match t with
    | '-' :: r => (-1, r)
    | '+' :: r => (1, r)
    | _ => (1, t)
  let digits := signAndRest.2.takeWhile Char.isDigit
  if digits = [] then none
  else some (signAndRest.1 * (digitsToNat digits : Int))

/-- The process environment variables read by loadConfig. -/
structure Env where
  authentikUrl : Option String
  authentikToken : Option String
  authentikAccessTier : Option String
  authentikCategories : Option String
  mcpTransport : Option String
  mcpPort : Option String
  mcpHost : Option String

def missingUrlMsg : Str := "Missing required environment variable: AUTHENTIK_URL".data

def missingTokenMsg : Str := "Missing required environment variable: AUTHENTIK_TOKEN".data

def invalidPortMsg (raw : String) : Str :=
  ("Invalid MCP_PORT: \"" ++ raw ++ "\". Must be an integer between 1 and 65535.").data

/-- loadConfig from src/core/config.ts (note: a falsy check, so the empty
    string counts as missing). -/
def loadConfig (env : Env) : Except Str AppConfig :=
  match env.authentikUrl with
  | none => .error missingUrlMsg
  | some url =>
    if url = "" then .error missingUrlMsg
    else
      match env.authentikToken with
      | none => .error missingTokenMsg
      | some token =>
        if token = "" then .error missingTokenMsg
        else
          match parseAccessTier env.authentikAccessTier with
          | .error e => .error e
          | .ok tier =>
            let categories := parseCategories env.authentikCategories
            let transport :=
              if env.mcpTransport = some "http" then Transport.http else Transport.stdio
            let rawPort := env.mcpPort.getD "3000"
            match jsParseInt rawPort.data with
            | none => .error (invalidPortMsg rawPort)
            | some p =>
              if p < 1 ∨ p > 65535 then .error (invalidPortMsg rawPort)
              else
                .ok { url := normalizeUrl url.data, token := token.data,
                      accessTier := tier, categories := categories,
                      transport := transport, httpPort := p.toNat,
                      httpHost := (env.mcpHost.getD "0.0.0.0").data }

/- ── Overlap side conditions for the redaction lemmas ────────────────────── -/

/-- Decidable infix test on character lists. -/
def containsSeq (pat s : Str) : Bool := s.tails.any (fun t => pat.isPrefixOf t)

/-- A secret and a replacement text do not overlap: the secret neither
    contains nor is contained in the replacement, no nonempty suffix of the
    replacement begins the secret, and no nonempty prefix of the replacement
    ends the secret.  Under these conditions a replacement can never
    synthesize a fresh occurrence of the secret. -/
def noOverlapB (tok marker : Str) : Bool :=
  !(containsSeq tok marker) &&
  !(containsSeq marker tok) &&
  (marker.tails.all (fun u => u.isEmpty || !(u.isPrefixOf tok))) &&
  (marker.inits.all (fun u => u.isEmpty || !(u.isSuffixOf tok)))

/-- All overlap conditions a configured token needs so that the four scrub
    passes neither miss nor resynthesize it. -/
def tokenScrubSafe (tok : Str) : Bool :=
  noOverlapB tok redactedMarker && noOverlapB tok urlMarker &&
  noOverlapB tok bearerRepl && noOverlapB tok authRepl

/-- All overlap conditions the configured base URL needs (its scrub pass runs
    after the token pass, so only the later replacement texts matter). -/
def urlScrubSafe (url : Str) : Bool :=
  noOverlapB url urlMarker && noOverlapB url bearerRepl && noOverlapB url authRepl

/-- Case-insensitive occurrence of a word. -/
def ciOccurs (word s : Str) : Bool := containsSeq word (s.map Char.toLower)

/-- Length of the whitespace run following the matched word. -/
def leadWs (word s : Str) : Nat :=
  ((List.drop word.length s).takeWhile isJsWhitespace).length

/-- What remains after the word and the whitespace run. -/
def afterWsPart (word s : Str) : Str :=
  (List.drop word.length s).dropWhile isJsWhitespace

/-- Length of the non-whitespace run the match consumes last. -/
def solidLen (word s : Str) : Nat :=
  ((afterWsPart word s).takeWhile (fun c => !(isJsWhitespace c))).length

/-- The common shape of the two header-pattern matchers: a case-insensitive
    literal word, then a maximal whitespace run of at least minWs characters,
    then a maximal non-empty non-whitespace run.  bearerMatch is this shape at
    (bearer, 1) and authMatch at (authorization-colon, 0). -/
def wordMatch (word : Str) (minWs : Nat) (s : Str) : Option Nat :=
  if ciHasPrefixWord word s then
    if minWs ≤ leadWs word s ∧ 1 ≤ solidLen word s then
      some (word.length + leadWs word s + solidLen word s)
    else none
  else none

/-- The scan of a string reproduces it: every visited position either fails
    the matcher or fires consuming exactly one copy of the replacement text.
    Such strings are fixed points of the scan. -/
inductive SelfScan (m : Str → Option Nat) (repl : Str) : Str → Prop
  | nil : SelfScan m repl []
  | keep (c : Char) {rest : Str} : m (c :: rest) = none → SelfScan m repl rest →
      SelfScan m repl (c :: rest)
  | fire {s : Str} (n : Nat) : m s = some (n + 1) → List.take (n + 1) s = repl →
      SelfScan m repl (List.drop (n + 1) s) → SelfScan m repl s

/-- No case-insensitive occurrence of (a prefix of) the word starts inside t
    in a way that could survive an arbitrary continuation: at every position
    of t the comparison against the word already fails within t. -/
def noCiStartWithin (word t : Str) : Bool :=
  (List.range t.length).all
    (fun i => !(ciHasPrefixWord (List.take (t.length - i) word) (List.drop i t)))

/-- Checker for dispatch completeness: the outcome is a backend call with a
    non-empty method name, and, when the operation requires a request body, a
    non-empty body key. -/
def resolvesOk (d : DispatchOutcome) (needsKey : Bool) : Bool :=
  match d with
  | .backendCall m k =>
    (m ≠ "" : Bool) &&
      (!needsKey || (match k with
                     | some s => (s ≠ "" : Bool)
                     | none => false))
  | .errorBeforeCall _ => false

/-- Segment structure of a single scan-and-replace pass: the output
    interleaves kept characters of the input with copies of the replacement,
    each replacement consuming at least one input character. -/
inductive Emits (repl : Str) : Str → Str → Prop
  | nil : Emits repl [] []
  | keep (c : Char) {rest out : Str} : Emits repl rest out → Emits repl (c :: rest) (c :: out)
  | rep {chunk rest out : Str} : chunk ≠ [] → Emits repl rest out →
      Emits repl (chunk ++ rest) (repl ++ out)

/- ── Theorems ────────────────────────────────────────────────────────────── -/

/- Unfolding equations for the scanner. -/

theorem scanReplFuel_congr (m : Str → Option Nat) (repl : Str) :
    ∀ f₁ f₂ s, List.length s ≤ f₁ → List.length s ≤ f₂ →
      scanReplFuel m repl f₁ s = scanReplFuel m repl f₂ s := by
  intro f₁
  induction f₁ with
  | zero =>
    intro f₂ s h1 _
    have hnil : s = [] := List.length_eq_zero.mp (Nat.le_zero.mp h1)
    subst hnil
    rw [scanReplFuel]
    cases f₂ <;> rw [scanReplFuel]
  | succ a ih =>
    intro f₂ s h1 h2
    match s with
    | [] =>
      rw [scanReplFuel]
      cases f₂ <;> rw [scanReplFuel]
    | c :: rest =>
      simp only [List.length_cons] at h1 h2
      match f₂ with
      | 0 => omega
      | b + 1 =>
        rw [scanReplFuel, scanReplFuel]
        cases hm : m (c :: rest) with
        | none =>
          exact congrArg (c :: ·) (ih b rest (by omega) (by omega))
        | some k =>
          cases k with
          | zero =>
            exact congrArg (c :: ·) (ih b rest (by omega) (by omega))
          | succ n =>
            refine congrArg (repl ++ ·) (ih b (List.drop n rest) ?_ ?_) <;>
              simp only [List.length_drop] <;> omega

theorem scanRepl_nil (m : Str → Option Nat) (repl : Str) : scanRepl m repl [] = [] := rfl

theorem scanRepl_cons_hit {m : Str → Option Nat} {repl : Str} (c : Char) (rest : Str)
    {n : Nat} (hm : m (c :: rest) = some (n + 1)) :
    scanRepl m repl (c :: rest) = repl ++ scanRepl m repl (List.drop n rest) := by
  show scanReplFuel m repl (rest.length + 1) (c :: rest) = _
  rw [scanReplFuel, hm]
  refine congrArg (repl ++ ·) (scanReplFuel_congr m repl _ _ _ ?_ (Nat.le_refl _))
  have := List.length_drop n rest
  omega

theorem scanRepl_cons_none {m : Str → Option Nat} {repl : Str} (c : Char) (rest : Str)
    (hm : m (c :: rest) = none) :
    scanRepl m repl (c :: rest) = c :: scanRepl m repl rest := by
  show scanReplFuel m repl (rest.length + 1) (c :: rest) = _
  rw [scanReplFuel, hm]
  rfl

theorem scanRepl_cons_zero {m : Str → Option Nat} {repl : Str} (c : Char) (rest : Str)
    (hm : m (c :: rest) = some 0) :
    scanRepl m repl (c :: rest) = c :: scanRepl m repl rest := by
  show scanReplFuel m repl (rest.length + 1) (c :: rest) = _
  rw [scanReplFuel, hm]
  rfl

/- Bridges between the boolean tests and the propositional relations. -/

theorem isPrefixOf_eq_true {l t : Str} : l.isPrefixOf t = true ↔ l <+: t := by
  exact List.isPrefixOf_iff_prefix

theorem isSuffixOf_eq_true {l t : Str} : l.isSuffixOf t = true ↔ l <:+ t := by
  exact List.isSuffixOf_iff_suffix

theorem containsSeq_iff {pat s : Str} : containsSeq pat s = true ↔ pat <:+: s := by
  unfold containsSeq
  rw [List.any_eq_true]
  constructor
  · rintro ⟨t, ht, hp⟩
    rw [List.mem_tails] at ht
    rw [isPrefixOf_eq_true] at hp
    exact List.infix_iff_prefix_suffix.mpr ⟨t, hp, ht⟩
  · intro h
    obtain ⟨t, hp, ht⟩ := List.infix_iff_prefix_suffix.mp h
    exact ⟨t, (List.mem_tails _ _).mpr ht, isPrefixOf_eq_true.mpr hp⟩

theorem noOverlap_spec {tok marker : Str} (h : noOverlapB tok marker = true) :
    (¬ tok <:+: marker) ∧ (¬ marker <:+: tok) ∧
    (∀ u, u ≠ [] → u <:+ marker → ¬ u <+: tok) ∧
    (∀ u, u ≠ [] → u <+: marker → ¬ u <:+ tok) := by
  unfold noOverlapB at h
  simp only [Bool.and_eq_true, List.all_eq_true] at h
  obtain ⟨⟨⟨h1, h2⟩, h3⟩, h4⟩ := h
  refine ⟨?_, ?_, ?_, ?_⟩
  · intro hc
    rw [← containsSeq_iff] at hc
    rw [hc] at h1
    simp at h1
  · intro hc
    rw [← containsSeq_iff] at hc
    rw [hc] at h2
    simp at h2
  · intro u hne hsuf hpre
    have hu := h3 u ((List.mem_tails _ _).mpr hsuf)
    rw [isPrefixOf_eq_true.mpr hpre] at hu
    simp [List.isEmpty_iff, hne] at hu
  · intro u hne hpre hsuf
    have hu := h4 u ((List.mem_inits _ _).mpr hpre)
    rw [isSuffixOf_eq_true.mpr hsuf] at hu
    simp [List.isEmpty_iff, hne] at hu

/- Decomposition of an infix occurrence across a concatenation. -/

theorem prefix_append_split {l a b : Str} (h : l <+: a ++ b) (hlen : a.length < l.length) :
    l = a ++ List.drop a.length l ∧ List.drop a.length l <+: b := by
  obtain ⟨t, ht⟩ := h
  have h1 : a <+: l := by
    have h2 : a <+: l ++ t := ⟨b, ht.symm⟩
    exact (List.isPrefix_append_of_length (Nat.le_of_lt hlen)).mp h2
  obtain ⟨u, hu⟩ := h1
  have hdrop : List.drop a.length l = u := by
    rw [← hu]
    exact List.drop_left a u
  constructor
  · rw [hdrop, hu]
  · rw [hdrop]
    refine ⟨t, ?_⟩
    have : a ++ (u ++ t) = a ++ b := by
      rw [← List.append_assoc, hu, ht]
    exact List.append_cancel_left this

theorem infix_append_cases {tok a b : Str} (h : tok <:+: a ++ b) :
    tok <:+: a ∨ tok <:+: b ∨
    ∃ t₁ t₂, tok = t₁ ++ t₂ ∧ t₁ ≠ [] ∧ t₂ ≠ [] ∧ t₁ <:+ a ∧ t₂ <+: b := by
  induction a with
  | nil => right; left; simpa using h
  | cons x a ih =>
    rw [List.cons_append, List.infix_cons_iff] at h
    rcases h with hpre | hinf
    · rw [← List.cons_append] at hpre
      by_cases hlen : tok.length ≤ (x :: a).length
      · left
        exact ((List.isPrefix_append_of_length hlen).mp hpre).isInfix
      · right; right
        push_neg at hlen
        obtain ⟨heq, hsufb⟩ := prefix_append_split hpre hlen
        refine ⟨x :: a, List.drop (x :: a).length tok, heq, by simp, ?_, List.suffix_refl _, hsufb⟩
        intro hnil
        rw [List.drop_eq_nil_iff_le] at hnil
        omega
    · rcases ih hinf with h1 | h2 | ⟨t₁, t₂, he, hn1, hn2, hs, hp⟩
      · exact Or.inl (List.infix_cons h1)
      · exact Or.inr (Or.inl h2)
      · exact Or.inr (Or.inr ⟨t₁, t₂, he, hn1, hn2, hs.trans (List.suffix_cons x a), hp⟩)

/- The segment structure produced by one scan pass, and its consequences. -/

theorem emits_scanRepl (m : Str → Option Nat) (repl : Str) (s : Str) :
    Emits repl s (scanRepl m repl s) := by
  have H : ∀ N s, List.length s ≤ N → Emits repl s (scanRepl m repl s) := by
    intro N
    induction N with
    | zero =>
      intro s hs
      have hnil : s = [] := List.length_eq_zero.mp (Nat.le_zero.mp hs)
      subst hnil
      rw [scanRepl_nil]
      exact Emits.nil
    | succ N ih =>
      intro s hs
      match s with
      | [] =>
        rw [scanRepl_nil]
        exact Emits.nil
      | c :: rest =>
        cases hm : m (c :: rest) with
        | none =>
          rw [scanRepl_cons_none c rest hm]
          exact Emits.keep c (ih rest (by simp at hs; omega))
        | some k =>
          cases k with
          | zero =>
            rw [scanRepl_cons_zero c rest hm]
            exact Emits.keep c (ih rest (by simp at hs; omega))
          | succ n =>
            rw [scanRepl_cons_hit c rest hm]
            have hchunk : c :: rest = (c :: List.take n rest) ++ List.drop n rest := by
              simp
            rw [hchunk]
            refine Emits.rep (by simp) (ih (List.drop n rest) ?_)
            have : (List.drop n rest).length ≤ rest.length := by
              simp [List.length_drop]
            simp at hs
            omega
  exact H (List.length s) s (Nat.le_refl _)

theorem emits_map (f : Char → Char) {repl s out : Str} (h : Emits repl s out) :
    Emits (repl.map f) (s.map f) (out.map f) := by
  induction h with
  | nil => exact Emits.nil
  | keep c _ ih => exact Emits.keep (f c) ih
  | rep hne _ ih =>
    rename_i chunk rest out'
    rw [List.map_append, List.map_append]
    exact Emits.rep (by simpa using hne) ih

/-- Any nonempty suffix of the secret that begins the output of a scan pass
    also begins the input, provided no nonempty prefix of the replacement
    ends the secret and the replacement does not occur inside the secret. -/
theorem emits_prefix_pull {tok repl s out : Str} (h : Emits repl s out)
    (hC : ∀ u, u ≠ [] → u <+: repl → ¬ u <:+ tok) (hD : ¬ repl <:+: tok) :
    ∀ v, v ≠ [] → v <:+ tok → v <+: out → v <+: s := by
  induction h with
  | nil =>
    intro v hne _ hp
    rw [List.prefix_nil] at hp
    exact absurd hp hne
  | keep c h ih =>
    intro v hne hsuf hp
    match v, hp with
    | [], _ => exact absurd rfl hne
    | b :: v', hp =>
      rw [List.cons_prefix_iff] at hp
      obtain ⟨hb, hp'⟩ := hp
      subst hb
      by_cases hv' : v' = []
      · subst hv'
        exact ⟨_, rfl⟩
      · have hsuf' : v' <:+ tok := by
          obtain ⟨w, hw⟩ := hsuf
          exact ⟨w ++ [b], by rw [← hw]; simp⟩
        have := ih v' hv' hsuf' hp'
        obtain ⟨w, hw⟩ := this
        exact ⟨w, by simp [← hw]⟩
  | rep hne h ih =>
    rename_i chunk rest out'
    intro v hvne hsuf hp
    by_cases hlen : v.length ≤ repl.length
    · exfalso
      have hvp : v <+: repl := (List.isPrefix_append_of_length hlen).mp hp
      exact hC v hvne hvp hsuf
    · exfalso
      push_neg at hlen
      have : repl <+: v := by
        obtain ⟨t, ht⟩ := hp
        have : repl <+: v ++ t := ⟨out', by rw [ht]⟩
        exact (List.isPrefix_append_of_length (Nat.le_of_lt hlen)).mp this
      exact hD (this.isInfix.trans hsuf.isInfix)

/-- A scan pass cannot synthesize an occurrence of a secret that the input
    did not contain, provided the secret does not overlap the replacement. -/
theorem emits_no_new {tok repl s out : Str} (h : Emits repl s out)
    (hA : ¬ tok <:+: repl)
    (hB : ∀ u, u ≠ [] → u <:+ repl → ¬ u <+: tok)
    (hC : ∀ u, u ≠ [] → u <+: repl → ¬ u <:+ tok)
    (hD : ¬ repl <:+: tok)
    (hs : ¬ tok <:+: s) : ¬ tok <:+: out := by
  induction h with
  | nil => simpa using hs
  | keep c h ih =>
    rename_i rest out'
    intro hout
    rw [List.infix_cons_iff] at hout
    have hrest : ¬ tok <:+: rest := fun hr => hs (List.infix_cons hr)
    rcases hout with hp | hinf
    · match tok, hp with
      | [], _ => exact hs ⟨[], c :: rest, rfl⟩
      | b :: tok', hp =>
        rw [List.cons_prefix_iff] at hp
        obtain ⟨hb, hp'⟩ := hp
        subst hb
        by_cases htok' : tok' = []
        · subst htok'
          exact hs ⟨[], rest, rfl⟩
        · have hsuf' : tok' <:+ b :: tok' := ⟨[b], rfl⟩
          have := emits_prefix_pull h hC hD tok' htok' hsuf' hp'
          obtain ⟨w, hw⟩ := this
          exact hs ⟨[], w, by simp [← hw]⟩
    · exact ih hrest hinf
  | rep hne h ih =>
    rename_i chunk rest out'
    intro hout
    have hrest : ¬ tok <:+: rest := by
      intro hr
      exact hs (hr.trans ⟨chunk, [], by simp⟩)
    rcases infix_append_cases hout with h1 | h2 | ⟨t₁, t₂, he, hn1, hn2, hsfx, hpfx⟩
    · exact hA h1
    · exact ih hrest h2
    · exact hB t₁ hn1 hsfx ⟨t₂, he.symm⟩

/-- replaceAll with the secret itself as the pattern leaves no occurrence of
    the secret, provided the secret does not overlap the replacement text. -/
theorem replaceAllLit_removes {tok repl : Str} (htok : tok ≠ [])
    (hA : ¬ tok <:+: repl)
    (hB : ∀ u, u ≠ [] → u <:+ repl → ¬ u <+: tok)
    (hC : ∀ u, u ≠ [] → u <+: repl → ¬ u <:+ tok)
    (hD : ¬ repl <:+: tok) :
    ∀ s, ¬ tok <:+: replaceAllLit tok repl s := by
  have H : ∀ N s, List.length s ≤ N → ¬ tok <:+: replaceAllLit tok repl s := by
    intro N
    induction N with
    | zero =>
      intro s hs
      have hnil : s = [] := List.length_eq_zero.mp (Nat.le_zero.mp hs)
      subst hnil
      rw [replaceAllLit, scanRepl_nil]
      intro hcon
      exact htok (List.infix_nil.mp hcon)
    | succ N ih =>
      intro s hs
      match s with
      | [] =>
        rw [replaceAllLit, scanRepl_nil]
        intro hcon
        exact htok (List.infix_nil.mp hcon)
      | c :: rest =>
        by_cases hm : tok.isPrefixOf (c :: rest) = true
        · obtain ⟨n, hn⟩ : ∃ n, tok.length = n + 1 := by
            cases tok with
            | nil => exact absurd rfl htok
            | cons a as => exact ⟨as.length, rfl⟩
          have hfire : litMatch tok (c :: rest) = some (n + 1) := by
            unfold litMatch
            rw [if_pos ⟨htok, hm⟩, hn]
          rw [replaceAllLit, scanRepl_cons_hit c rest hfire]
          intro hinf
          rcases infix_append_cases hinf with h1 | h2 | ⟨t₁, t₂, he, hn1, hn2, hsfx, hpfx⟩
          · exact hA h1
          · refine ih (List.drop n rest) ?_ h2
            have hd : (List.drop n rest).length ≤ rest.length := by
              simp [List.length_drop]
            simp at hs
            omega
          · exact hB t₁ hn1 hsfx ⟨t₂, he.symm⟩
        · have hnof : litMatch tok (c :: rest) = none := by
            unfold litMatch
            rw [if_neg]
            intro hcon
            exact hm hcon.2
          rw [replaceAllLit, scanRepl_cons_none c rest hnof]
          intro hinf
          rw [List.infix_cons_iff] at hinf
          rcases hinf with hp | hinf
          · have hem : Emits repl (c :: rest) (c :: scanRepl (litMatch tok) repl rest) :=
              Emits.keep c (emits_scanRepl _ _ _)
            have hpin := emits_prefix_pull hem hC hD tok htok (List.suffix_refl tok) hp
            exact hm (isPrefixOf_eq_true.mpr hpin)
          · refine ih rest ?_ hinf
            simp at hs
            omega
  intro s
  exact H (List.length s) s (Nat.le_refl _)

/-- A scan pass whose matcher fires nowhere in the string is the identity. -/
theorem scanRepl_id_of_no_fire {m : Str → Option Nat} {repl : Str} :
    ∀ s, (∀ t, t <:+ s → m t = none) → scanRepl m repl s = s := by
  intro s
  induction s with
  | nil => intro _; exact scanRepl_nil m repl
  | cons c rest ih =>
    intro hnf
    rw [scanRepl_cons_none c rest (hnf _ (List.suffix_refl _))]
    rw [ih (fun t ht => hnf t (ht.trans (List.suffix_cons c rest)))]

theorem litMatch_none {pat s : Str} (h : ¬ pat <:+: s) :
    ∀ t, t <:+ s → litMatch pat t = none := by
  intro t ht
  unfold litMatch
  rw [if_neg]
  rintro ⟨hne, hp⟩
  exact h ((isPrefixOf_eq_true.mp hp).isInfix.trans ht.isInfix)

/-- replaceAll of a pattern that does not occur is the identity. -/
theorem replaceAllLit_id {pat repl s : Str} (h : ¬ pat <:+: s) :
    replaceAllLit pat repl s = s :=
  scanRepl_id_of_no_fire s (litMatch_none h)

theorem ciHasPrefixWord_lower : ∀ (w t : Str), ciHasPrefixWord w t = true →
    w.map Char.toLower <+: t.map Char.toLower := by
  intro w
  induction w with
  | nil => intro t _; exact ⟨t.map Char.toLower, rfl⟩
  | cons p ps ih =>
    intro t h
    match t with
    | [] => simp [ciHasPrefixWord] at h
    | c :: cs =>
      simp [ciHasPrefixWord] at h
      obtain ⟨h1, h2⟩ := h
      rw [List.map_cons, List.map_cons, List.cons_prefix_cons]
      exact ⟨h1.symm, ih cs h2⟩

theorem ciOccurs_false_iff {word s : Str} :
    ciOccurs word s = false ↔ ¬ word <:+: s.map Char.toLower := by
  rw [ciOccurs]
  constructor
  · intro h hcon
    rw [← containsSeq_iff] at hcon
    rw [h] at hcon
    cases hcon
  · intro h
    cases hcs : containsSeq word (s.map Char.toLower) with
    | false => rfl
    | true => exact absurd (containsSeq_iff.mp hcs) h

theorem bearerMatch_none {s : Str} (h : ciOccurs bearerWord s = false) :
    ∀ t, t <:+ s → bearerMatch t = none := by
  intro t ht
  unfold bearerMatch
  rw [if_neg]
  intro hci
  have hp := ciHasPrefixWord_lower bearerWord t hci
  have hw : bearerWord.map Char.toLower = bearerWord := by decide
  rw [hw] at hp
  have hsuf : t.map Char.toLower <:+ s.map Char.toLower := ht.map Char.toLower
  exact (ciOccurs_false_iff.mp h) (hp.isInfix.trans hsuf.isInfix)

theorem authMatch_none {s : Str} (h : ciOccurs authorizationWord s = false) :
    ∀ t, t <:+ s → authMatch t = none := by
  intro t ht
  unfold authMatch
  rw [if_neg]
  intro hci
  have hp := ciHasPrefixWord_lower authorizationWord t hci
  have hw : authorizationWord.map Char.toLower = authorizationWord := by decide
  rw [hw] at hp
  have hsuf : t.map Char.toLower <:+ s.map Char.toLower := ht.map Char.toLower
  exact (ciOccurs_false_iff.mp h) (hp.isInfix.trans hsuf.isInfix)

/-- A scan pass cannot synthesize a secret absent from its input, stated over
    the boolean side condition. -/
theorem scrub_no_new {tok repl : Str} (m : Str → Option Nat) (s : Str)
    (hno : noOverlapB tok repl = true) (hs : ¬ tok <:+: s) :
    ¬ tok <:+: scanRepl m repl s := by
  obtain ⟨hA, hD, hB, hC⟩ := noOverlap_spec hno
  exact emits_no_new (emits_scanRepl m repl s) hA hB hC hD hs

theorem replaceAllLit_no_occurrence {tok repl : Str} (htok : tok ≠ [])
    (hno : noOverlapB tok repl = true) (s : Str) :
    ¬ tok <:+: replaceAllLit tok repl s := by
  obtain ⟨hA, hD, hB, hC⟩ := noOverlap_spec hno
  exact replaceAllLit_removes htok hA hB hC hD s

/-- A scan pass cannot synthesize a case-insensitive occurrence of a word
    absent from its input, provided the word does not overlap the lowered
    replacement text. -/
theorem scrub_ci_no_new {word repl : Str} (m : Str → Option Nat) (s : Str)
    (hno : noOverlapB word (repl.map Char.toLower) = true)
    (hs : ciOccurs word s = false) : ciOccurs word (scanRepl m repl s) = false := by
  obtain ⟨hA, hD, hB, hC⟩ := noOverlap_spec hno
  have hemit := emits_map Char.toLower (emits_scanRepl m repl s)
  rw [ciOccurs_false_iff] at hs ⊢
  exact emits_no_new hemit hA hB hC hD hs

/- ── Fixed-point theory of the pattern scrub passes ──────────────────────── -/

theorem drop_length_takeWhile (p : Char → Bool) : ∀ l : Str,
    List.drop (l.takeWhile p).length l = l.dropWhile p := by
  intro l
  induction l with
  | nil => rfl
  | cons c t ih =>
    rw [List.takeWhile_cons, List.dropWhile_cons]
    by_cases h : p c = true
    · rw [if_pos h, if_pos h]
      simp only [List.length_cons, List.drop_succ_cons]
      exact ih
    · rw [if_neg h, if_neg h]
      rfl

theorem length_takeWhile_le (p : Char → Bool) : ∀ l : Str,
    (l.takeWhile p).length ≤ l.length := by
  intro l
  induction l with
  | nil => exact Nat.le_refl 0
  | cons c t ih =>
    rw [List.takeWhile_cons]
    by_cases h : p c = true
    · rw [if_pos h]
      simp only [List.length_cons]
      omega
    · rw [if_neg h]
      simp

theorem dropWhile_head_false (p : Char → Bool) :
    ∀ (l : Str) (c : Char) (t : Str), List.dropWhile p l = c :: t → p c = false := by
  intro l
  induction l with
  | nil => intro c t h; exact absurd h (by simp)
  | cons a l' ih =>
    intro c t h
    rw [List.dropWhile_cons] at h
    by_cases ha : p a = true
    · rw [if_pos ha] at h
      exact ih c t h
    · rw [if_neg ha] at h
      cases h
      simpa using ha

theorem takeWhile_all_append (p : Char → Bool) :
    ∀ (t : Str), (∀ x ∈ t, p x = true) →
      ∀ u, List.takeWhile p (t ++ u) = t ++ List.takeWhile p u := by
  intro t
  induction t with
  | nil => intro _ u; rfl
  | cons a t' ih =>
    intro h u
    rw [List.cons_append, List.takeWhile_cons, if_pos (h a (by simp)),
      ih (fun x hx => h x (by simp [hx])) u, List.cons_append]

theorem dropWhile_all_append (p : Char → Bool) :
    ∀ (t : Str), (∀ x ∈ t, p x = true) →
      ∀ u, List.dropWhile p (t ++ u) = List.dropWhile p u := by
  intro t
  induction t with
  | nil => intro _ u; rfl
  | cons a t' ih =>
    intro h u
    rw [List.cons_append, List.dropWhile_cons, if_pos (h a (by simp))]
    exact ih (fun x hx => h x (by simp [hx])) u

theorem takeWhile_append_cons_neg (p : Char → Bool) (x : Char) (hx : p x = false) :
    ∀ (D Z : Str), List.takeWhile p (D ++ (x :: Z)) = List.takeWhile p D := by
  intro D
  induction D with
  | nil =>
    intro Z
    rw [List.nil_append, List.takeWhile_cons, if_neg (by simp [hx])]
    rfl
  | cons d D' ih =>
    intro Z
    rw [List.cons_append, List.takeWhile_cons, List.takeWhile_cons]
    by_cases hd : p d = true
    · rw [if_pos hd, if_pos hd, ih]
    · rw [if_neg hd, if_neg hd]

theorem ciHasPrefixWord_head_false {p c : Char} (ps : Str) {t : Str}
    (h : (c.toLower == p.toLower) = false) :
    ciHasPrefixWord (p :: ps) (c :: t) = false := by
  simp only [ciHasPrefixWord, h, Bool.false_and]

theorem ciHasPrefixWord_length_le : ∀ (w t : Str), ciHasPrefixWord w t = true →
    w.length ≤ t.length := by
  intro w
  induction w with
  | nil => intro t _; simp
  | cons p ps ih =>
    intro t h
    match t with
    | [] => exact absurd h (by simp [ciHasPrefixWord])
    | c :: cs =>
      simp only [ciHasPrefixWord, Bool.and_eq_true] at h
      have := ih cs h.2
      simp only [List.length_cons]
      omega

theorem ciHasPrefixWord_eq_of_take : ∀ (w s₁ s₂ : Str),
    List.take w.length s₁ = List.take w.length s₂ →
    ciHasPrefixWord w s₁ = ciHasPrefixWord w s₂ := by
  intro w
  induction w with
  | nil => intro s₁ s₂ _; rfl
  | cons p ps ih =>
    intro s₁ s₂ h
    match s₁, s₂ with
    | [], [] => rfl
    | [], c₂ :: t₂ => simp at h
    | c₁ :: t₁, [] => simp at h
    | c₁ :: t₁, c₂ :: t₂ =>
      simp only [List.length_cons, List.take_succ_cons, List.cons.injEq] at h
      obtain ⟨h1, h2⟩ := h
      subst h1
      simp only [ciHasPrefixWord]
      rw [ih t₁ t₂ h2]

theorem ciHasPrefixWord_append_drop : ∀ (p w rest : Str),
    ciHasPrefixWord w (p ++ rest) = true → p.length ≤ w.length →
    ciHasPrefixWord (List.drop p.length w) rest = true := by
  intro p
  induction p with
  | nil => intro w rest h _; simpa using h
  | cons c p' ih =>
    intro w rest h hlen
    match w with
    | [] =>
      simp only [List.length_cons, List.length_nil] at hlen
      omega
    | q :: w' =>
      simp only [List.cons_append, ciHasPrefixWord, Bool.and_eq_true] at h
      simp only [List.length_cons, List.drop_succ_cons]
      exact ih w' rest h.2 (by simpa using hlen)

theorem ciHasPrefixWord_extend_false : ∀ (t word u : Str),
    ciHasPrefixWord (List.take t.length word) t = false →
    ciHasPrefixWord word (t ++ u) = false := by
  intro t
  induction t with
  | nil =>
    intro word u h
    exact absurd h (by simp [ciHasPrefixWord])
  | cons c t' ih =>
    intro word u h
    match word with
    | [] => exact absurd h (by simp [ciHasPrefixWord])
    | p :: w' =>
      simp only [List.length_cons, List.take_succ_cons, ciHasPrefixWord] at h
      rw [List.cons_append]
      simp only [ciHasPrefixWord]
      cases hc : (c.toLower == p.toLower) with
      | false => rw [Bool.false_and]
      | true =>
        rw [hc, Bool.true_and] at h
        rw [Bool.true_and]
        exact ih w' u h

theorem ciHasPrefixWord_append_of_exact : ∀ (w t u : Str),
    ciHasPrefixWord w t = true → t.length = w.length →
    ciHasPrefixWord w (t ++ u) = true := by
  intro w
  induction w with
  | nil => intro t u _ _; rfl
  | cons p ps ih =>
    intro t u h hlen
    match t with
    | [] => simp at hlen
    | c :: t' =>
      simp only [ciHasPrefixWord, Bool.and_eq_true] at h
      rw [List.cons_append]
      simp only [ciHasPrefixWord, Bool.and_eq_true]
      exact ⟨h.1, ih t' u h.2 (by simpa using hlen)⟩

theorem bearerMatch_eq_wordMatch : bearerMatch = wordMatch bearerWord 1 := by
  funext s
  unfold bearerMatch wordMatch
  by_cases hci : ciHasPrefixWord bearerWord s = true
  · rw [if_pos hci, if_pos hci]
    show (if 1 ≤ ((List.drop bearerWord.length s).takeWhile isJsWhitespace).length ∧
        1 ≤ ((List.drop ((List.drop bearerWord.length s).takeWhile isJsWhitespace).length
              (List.drop bearerWord.length s)).takeWhile
            (fun c => !(isJsWhitespace c))).length then
        some (bearerWord.length +
          ((List.drop bearerWord.length s).takeWhile isJsWhitespace).length +
          ((List.drop ((List.drop bearerWord.length s).takeWhile isJsWhitespace).length
              (List.drop bearerWord.length s)).takeWhile
            (fun c => !(isJsWhitespace c))).length)
      else none) = _
    rw [drop_length_takeWhile]
    unfold leadWs solidLen afterWsPart
    rfl
  · rw [if_neg hci, if_neg hci]

theorem authMatch_eq_wordMatch : authMatch = wordMatch authorizationWord 0 := by
  funext s
  unfold authMatch wordMatch
  by_cases hci : ciHasPrefixWord authorizationWord s = true
  · rw [if_pos hci, if_pos hci]
    show (if
        1 ≤ ((List.drop ((List.drop authorizationWord.length s).takeWhile isJsWhitespace).length
              (List.drop authorizationWord.length s)).takeWhile
            (fun c => !(isJsWhitespace c))).length then
        some (authorizationWord.length +
          ((List.drop authorizationWord.length s).takeWhile isJsWhitespace).length +
          ((List.drop ((List.drop authorizationWord.length s).takeWhile
                isJsWhitespace).length
              (List.drop authorizationWord.length s)).takeWhile
            (fun c => !(isJsWhitespace c))).length)
      else none) = _
    rw [drop_length_takeWhile]
    unfold leadWs solidLen afterWsPart
    exact if_congr (by simp [Nat.zero_le]) rfl rfl
  · rw [if_neg hci, if_neg hci]

theorem wordMatch_none_of_not_ci {word : Str} (minWs : Nat) {s : Str}
    (h : ciHasPrefixWord word s = false) : wordMatch word minWs s = none := by
  unfold wordMatch
  rw [if_neg (by simp [h])]

theorem wordMatch_none_of_ws_short {word : Str} {minWs : Nat} {s : Str}
    (h : leadWs word s < minWs) : wordMatch word minWs s = none := by
  unfold wordMatch
  by_cases hci : ciHasPrefixWord word s = true
  · rw [if_pos hci, if_neg (fun hc => (Nat.not_le_of_lt h) hc.1)]
  · rw [if_neg hci]

theorem wordMatch_none_elim {word : Str} {minWs : Nat} {s : Str}
    (h : wordMatch word minWs s = none) :
    ciHasPrefixWord word s = false ∨ leadWs word s < minWs ∨ solidLen word s = 0 := by
  unfold wordMatch at h
  by_cases hci : ciHasPrefixWord word s = true
  · rw [if_pos hci] at h
    by_cases hc : minWs ≤ leadWs word s ∧ 1 ≤ solidLen word s
    · rw [if_pos hc] at h
      exact absurd h (by simp)
    · rw [not_and_or] at hc
      rcases hc with h1 | h2
      · exact Or.inr (Or.inl (by omega))
      · exact Or.inr (Or.inr (by omega))
  · exact Or.inl (by simpa using hci)

theorem wordMatch_fire_elim {word : Str} {minWs : Nat} {s : Str} {k : Nat}
    (h : wordMatch word minWs s = some k) :
    ciHasPrefixWord word s = true ∧ minWs ≤ leadWs word s ∧ 1 ≤ solidLen word s ∧
      k = word.length + leadWs word s + solidLen word s := by
  unfold wordMatch at h
  by_cases hci : ciHasPrefixWord word s = true
  · rw [if_pos hci] at h
    by_cases hc : minWs ≤ leadWs word s ∧ 1 ≤ solidLen word s
    · rw [if_pos hc] at h
      exact ⟨hci, hc.1, hc.2, (Option.some.inj h).symm⟩
    · rw [if_neg hc] at h
      exact absurd h (by simp)
  · rw [if_neg hci] at h
    exact absurd h (by simp)

theorem dropWhile_length_add (p : Char → Bool) (l : Str) :
    (l.takeWhile p).length + (l.dropWhile p).length = l.length := by
  rw [← List.length_append, List.takeWhile_append_dropWhile]

theorem wordMatch_le_length {word : Str} {minWs : Nat} {s : Str} {k : Nat}
    (h : wordMatch word minWs s = some k) : k ≤ s.length := by
  obtain ⟨hci, _, hns, hk⟩ := wordMatch_fire_elim h
  have h1 := ciHasPrefixWord_length_le word s hci
  have h2 := dropWhile_length_add isJsWhitespace (List.drop word.length s)
  have h3 := length_takeWhile_le (fun c => !(isJsWhitespace c))
    ((List.drop word.length s).dropWhile isJsWhitespace)
  have h4 := List.length_drop word.length s
  simp only [leadWs, solidLen, afterWsPart] at hk
  omega

theorem wordMatch_pos {word : Str} {minWs : Nat} {s : Str} {k : Nat}
    (h : wordMatch word minWs s = some k) : 1 ≤ k := by
  obtain ⟨_, _, hns, hk⟩ := wordMatch_fire_elim h
  omega

theorem wordMatch_next_ws {word : Str} {minWs : Nat} {s : Str} {k : Nat}
    (h : wordMatch word minWs s = some k) :
    List.drop k s = [] ∨ ∃ d t, List.drop k s = d :: t ∧ isJsWhitespace d = true := by
  obtain ⟨_, _, _, hk⟩ := wordMatch_fire_elim h
  subst hk
  have e1 : List.drop (word.length + leadWs word s + solidLen word s) s
      = List.dropWhile (fun c => !(isJsWhitespace c)) (afterWsPart word s) := by
    rw [← List.drop_drop, ← List.drop_drop]
    simp only [leadWs, solidLen, afterWsPart]
    rw [drop_length_takeWhile, drop_length_takeWhile]
  rw [e1]
  cases hd : List.dropWhile (fun c => !(isJsWhitespace c)) (afterWsPart word s) with
  | nil => exact Or.inl rfl
  | cons d t =>
    have hh := dropWhile_head_false (fun c => !(isJsWhitespace c)) _ d t hd
    refine Or.inr ⟨d, t, rfl, ?_⟩
    simpa using hh

theorem scanRepl_split (m : Str → Option Nat) (repl : Str)
    (hm : ∀ t k, m t = some k → k ≤ List.length t) :
    ∀ s : Str, scanRepl m repl s = s ∨
      ∃ K M r₂, s = K ++ (M ++ r₂) ∧ M ≠ [] ∧ m (M ++ r₂) = some M.length ∧
        scanRepl m repl s = K ++ (repl ++ scanRepl m repl r₂) := by
  have H : ∀ (fuel : Nat) (s : Str), s.length ≤ fuel →
      (scanRepl m repl s = s ∨
        ∃ K M r₂, s = K ++ (M ++ r₂) ∧ M ≠ [] ∧ m (M ++ r₂) = some M.length ∧
          scanRepl m repl s = K ++ (repl ++ scanRepl m repl r₂)) := by
    intro fuel
    induction fuel with
    | zero =>
      intro s hs
      have hnil : s = [] := List.length_eq_zero.mp (Nat.le_zero.mp hs)
      subst hnil
      exact Or.inl (scanRepl_nil m repl)
    | succ f ih =>
      intro s hs
      match s with
      | [] => exact Or.inl (scanRepl_nil m repl)
      | c :: rest =>
        simp only [List.length_cons] at hs
        cases hmc : m (c :: rest) with
        | none =>
          rcases ih rest (by omega) with h | ⟨K, M, r₂, hdec, hM, hfire, hout⟩
          · exact Or.inl (by rw [scanRepl_cons_none c rest hmc, h])
          · refine Or.inr ⟨c :: K, M, r₂, by rw [List.cons_append, ← hdec], hM, hfire, ?_⟩
            rw [scanRepl_cons_none c rest hmc, hout, List.cons_append]
        | some k =>
          cases k with
          | zero =>
            rcases ih rest (by omega) with h | ⟨K, M, r₂, hdec, hM, hfire, hout⟩
            · exact Or.inl (by rw [scanRepl_cons_zero c rest hmc, h])
            · refine Or.inr ⟨c :: K, M, r₂, by rw [List.cons_append, ← hdec], hM, hfire, ?_⟩
              rw [scanRepl_cons_zero c rest hmc, hout, List.cons_append]
          | succ n =>
            have hkle : n + 1 ≤ rest.length + 1 := by
              have hh := hm _ _ hmc
              simpa using hh
            refine Or.inr ⟨[], List.take (n + 1) (c :: rest), List.drop (n + 1) (c :: rest),
              by rw [List.nil_append, List.take_append_drop], ?_, ?_, ?_⟩
            · simp [List.take_succ_cons]
            · rw [List.take_append_drop, hmc, List.length_take]
              congr 1
              simp only [List.length_cons]
              omega
            · rw [List.nil_append, scanRepl_cons_hit c rest hmc, List.drop_succ_cons]
  intro s
  exact H s.length s (Nat.le_refl _)

theorem noCiStartWithin_spec {word t : Str} (h : noCiStartWithin word t = true)
    (minWs : Nat) (i : Nat) (hi : i < t.length) (u : Str) :
    wordMatch word minWs (List.drop i t ++ u) = none := by
  apply wordMatch_none_of_not_ci
  have hfail : ciHasPrefixWord (List.take (List.drop i t).length word)
      (List.drop i t) = false := by
    unfold noCiStartWithin at h
    rw [List.all_eq_true] at h
    have hh := h i (List.mem_range.mpr hi)
    rw [Bool.not_eq_true'] at hh
    rw [List.length_drop]
    exact hh
  exact ciHasPrefixWord_extend_false (List.drop i t) word u hfail

theorem scanRepl_keep_through (m : Str → Option Nat) (repl : Str) :
    ∀ (t u : Str), (∀ i, i < t.length → m (List.drop i t ++ u) = none) →
      scanRepl m repl (t ++ u) = t ++ scanRepl m repl u := by
  intro t
  induction t with
  | nil => intro u _; rfl
  | cons c t' ih =>
    intro u h
    have h0 : m (c :: (t' ++ u)) = none := by
      have hh := h 0 (by simp)
      simpa using hh
    rw [List.cons_append, scanRepl_cons_none _ _ h0,
      ih u (fun i hi => by
        have hh := h (i + 1) (by simp only [List.length_cons]; omega)
        simpa using hh),
      List.cons_append]

theorem selfScan_keep_through (m : Str → Option Nat) (repl : Str) :
    ∀ (t u : Str), (∀ i, i < t.length → m (List.drop i t ++ u) = none) →
      SelfScan m repl u → SelfScan m repl (t ++ u) := by
  intro t
  induction t with
  | nil => intro u _ hu; exact hu
  | cons c t' ih =>
    intro u h hu
    rw [List.cons_append]
    refine SelfScan.keep c ?_
      (ih u (fun i hi => by
        have hh := h (i + 1) (by simp only [List.length_cons]; omega)
        simpa using hh) hu)
    have hh := h 0 (by simp)
    simpa using hh

theorem selfScan_fixed {m : Str → Option Nat} {repl : Str} :
    ∀ {s : Str}, SelfScan m repl s → scanRepl m repl s = s := by
  intro s h
  induction h with
  | nil => exact scanRepl_nil m repl
  | keep c hmc hrest ih => rw [scanRepl_cons_none _ _ hmc, ih]
  | fire n hmc htake hrest ih =>
    rename_i s'
    cases s' with
    | nil => exact scanRepl_nil m repl
    | cons c rest =>
      rw [scanRepl_cons_hit c rest hmc]
      have hd : List.drop n rest = List.drop (n + 1) (c :: rest) := by
        rw [List.drop_succ_cons]
      rw [hd, ih, ← htake, List.take_append_drop]

theorem selfScan_drop_one {m : Str → Option Nat} {repl : Str}
    (htail : ∀ j, 1 ≤ j → j < repl.length → ∀ u, m (List.drop j repl ++ u) = none) :
    ∀ {s : Str}, SelfScan m repl s → SelfScan m repl (List.drop 1 s) := by
  intro s h
  cases s with
  | nil => exact SelfScan.nil
  | cons c rest =>
    cases h with
    | keep c' hmc hrest => exact hrest
    | fire n hmc htake hrest =>
      show SelfScan m repl rest
      have h1 : c :: rest = repl ++ List.drop (n + 1) (c :: rest) := by
        rw [← htake, List.take_append_drop]
      have hrlen : 1 ≤ repl.length := by
        have h2 : repl.length = min (n + 1) (rest.length + 1) := by
          rw [← htake, List.length_take, List.length_cons]
        omega
      have hsplit : rest = List.drop 1 repl ++ List.drop (n + 1) (c :: rest) := by
        have h3 := congrArg (List.drop 1) h1
        rw [List.drop_append_eq_append_drop] at h3
        simpa [Nat.sub_eq_zero_of_le hrlen] using h3
      rw [hsplit]
      refine selfScan_keep_through m repl _ _ (fun i hi => ?_) hrest
      rw [List.drop_drop]
      refine htail (1 + i) (by omega) ?_ _
      rw [List.length_drop] at hi
      omega

theorem selfScan_drop {m : Str → Option Nat} {repl : Str}
    (htail : ∀ j, 1 ≤ j → j < repl.length → ∀ u, m (List.drop j repl ++ u) = none) :
    ∀ (j : Nat) {s : Str}, SelfScan m repl s → SelfScan m repl (List.drop j s) := by
  intro j
  induction j with
  | zero => intro s h; simpa using h
  | succ i ih =>
    intro s h
    have hh := selfScan_drop_one htail (ih h)
    rw [List.drop_drop] at hh
    exact hh

/-- Failure transfer: if the word pattern does not match at a position of the
    input, it still does not match at the corresponding position of the
    output of a scan pass, provided the scan's replacement text starts with a
    non-whitespace character, fired matches start with a non-whitespace
    character, and no tail of the word restarts inside the replacement. -/
theorem wordMatch_sim (word : Str) (minWs : Nat) (m₂ : Str → Option Nat) (repl₂ : Str)
    (hm₂ : ∀ t k, m₂ t = some k → k ≤ t.length)
    (hhead : ∀ M r₂, M ≠ [] → m₂ (M ++ r₂) = some M.length →
      ∃ m0 M', M = m0 :: M' ∧ isJsWhitespace m0 = false)
    (hr : ∃ r0 rs, repl₂ = r0 :: rs ∧ isJsWhitespace r0 = false)
    (hhy : ∀ j, 1 ≤ j → j < word.length → ciHasPrefixWord (List.drop j word) repl₂ = false)
    (hlen : word.length ≤ repl₂.length + 1)
    (c : Char) (s : Str)
    (h : wordMatch word minWs (c :: s) = none) :
    wordMatch word minWs (c :: scanRepl m₂ repl₂ s) = none := by
  rcases scanRepl_split m₂ repl₂ hm₂ s with hid | ⟨K, M, r₂, hdec, hM, hfire, hout⟩
  · rw [hid]
    exact h
  · rw [hout]
    obtain ⟨m0, M', hM0, hm0ws⟩ := hhead M r₂ hM hfire
    obtain ⟨r0, rs, hr0, hr0ws⟩ := hr
    by_cases hP : ciHasPrefixWord (List.take (c :: K).length word) (c :: K) = true
    case neg =>
      have hPf : ciHasPrefixWord (List.take (c :: K).length word) (c :: K) = false := by
        simpa using hP
      apply wordMatch_none_of_not_ci
      show ciHasPrefixWord word ((c :: K) ++ (repl₂ ++ scanRepl m₂ repl₂ r₂)) = false
      exact ciHasPrefixWord_extend_false (c :: K) word _ hPf
    case pos =>
      by_cases hPL : (c :: K).length < word.length
      · -- the word window would extend into the replacement: the hybrid
        -- comparison fails there
        apply wordMatch_none_of_not_ci
        cases hcw : ciHasPrefixWord word (c :: (K ++ (repl₂ ++ scanRepl m₂ repl₂ r₂))) with
        | false => rfl
        | true =>
          exfalso
          have hcw' : ciHasPrefixWord word
              ((c :: K) ++ (repl₂ ++ scanRepl m₂ repl₂ r₂)) = true := hcw
          have hsp := ciHasPrefixWord_append_drop (c :: K) word
            (repl₂ ++ scanRepl m₂ repl₂ r₂) hcw' (Nat.le_of_lt hPL)
          have heq : ciHasPrefixWord (List.drop (c :: K).length word)
              (repl₂ ++ scanRepl m₂ repl₂ r₂) =
              ciHasPrefixWord (List.drop (c :: K).length word) repl₂ := by
            apply ciHasPrefixWord_eq_of_take
            rw [List.take_append_eq_append_take]
            have hle : (List.drop (c :: K).length word).length ≤ repl₂.length := by
              rw [List.length_drop]
              simp only [List.length_cons] at hPL ⊢
              omega
            rw [Nat.sub_eq_zero_of_le hle, List.take_zero, List.append_nil]
          rw [heq, hhy (c :: K).length (by simp only [List.length_cons]; omega) hPL] at hsp
          exact Bool.noConfusion hsp
      · -- the word window lies inside the shared prefix
        push_neg at hPL
        rw [hdec] at h
        have hstepsIn : List.drop word.length (c :: (K ++ (M ++ r₂))) =
            List.drop word.length (c :: K) ++ (m0 :: (M' ++ r₂)) := by
          rw [← List.cons_append, List.drop_append_eq_append_drop,
            Nat.sub_eq_zero_of_le hPL, List.drop_zero, hM0, List.cons_append]
        have hstepsOut : List.drop word.length (c :: (K ++ (repl₂ ++ scanRepl m₂ repl₂ r₂))) =
            List.drop word.length (c :: K) ++ (r0 :: (rs ++ scanRepl m₂ repl₂ r₂)) := by
          rw [← List.cons_append, List.drop_append_eq_append_drop,
            Nat.sub_eq_zero_of_le hPL, List.drop_zero, hr0, List.cons_append]
        have hwin : ciHasPrefixWord word (c :: (K ++ (M ++ r₂))) =
            ciHasPrefixWord word (c :: (K ++ (repl₂ ++ scanRepl m₂ repl₂ r₂))) := by
          apply ciHasPrefixWord_eq_of_take
          have e : ∀ Z : Str, List.take word.length ((c :: K) ++ Z) =
              List.take word.length (c :: K) := by
            intro Z
            rw [List.take_append_eq_append_take, Nat.sub_eq_zero_of_le hPL,
              List.take_zero, List.append_nil]
          have e1 := e (M ++ r₂)
          have e2 := e (repl₂ ++ scanRepl m₂ repl₂ r₂)
          simp only [List.cons_append] at e1 e2
          rw [e1, e2]
        cases hcw : ciHasPrefixWord word (c :: (K ++ (M ++ r₂))) with
        | false =>
          apply wordMatch_none_of_not_ci
          rw [← hwin]
          exact hcw
        | true =>
          rcases wordMatch_none_elim h with h1 | h2 | h3
          · rw [hcw] at h1
            exact Bool.noConfusion h1
          · -- the whitespace run is too short, and it is the same run on
            -- both sides
            have eIn : leadWs word (c :: (K ++ (M ++ r₂))) =
                (List.takeWhile isJsWhitespace (List.drop word.length (c :: K))).length := by
              unfold leadWs
              rw [hstepsIn, takeWhile_append_cons_neg isJsWhitespace m0 hm0ws]
            have eOut : leadWs word (c :: (K ++ (repl₂ ++ scanRepl m₂ repl₂ r₂))) =
                (List.takeWhile isJsWhitespace (List.drop word.length (c :: K))).length := by
              unfold leadWs
              rw [hstepsOut, takeWhile_append_cons_neg isJsWhitespace r0 hr0ws]
            apply wordMatch_none_of_ws_short
            rw [eOut, ← eIn]
            exact h2
          · -- a fired match begins with a non-whitespace character, so the
            -- input side cannot be all whitespace after the word
            exfalso
            have hne : List.dropWhile isJsWhitespace
                (List.drop word.length (c :: (K ++ (M ++ r₂)))) ≠ [] := by
              rw [hstepsIn]
              intro hnil
              rw [List.dropWhile_eq_nil_iff] at hnil
              have hws := hnil m0 (by simp)
              rw [hm0ws] at hws
              exact Bool.noConfusion hws
            cases hdw : List.dropWhile isJsWhitespace
                (List.drop word.length (c :: (K ++ (M ++ r₂)))) with
            | nil => exact hne hdw
            | cons d t =>
              have hdns := dropWhile_head_false isJsWhitespace _ d t hdw
              unfold solidLen afterWsPart at h3
              rw [hdw, List.takeWhile_cons, if_pos (by simp [hdns])] at h3
              simp at h3

/-- The matcher consumes exactly a replacement-shaped text (case-matching
    word, a whitespace run, a non-empty solid run) when the continuation is
    empty or starts with whitespace. -/
theorem wordMatch_marker_fire (word W S : Str) (minWs : Nat) (n0 : Char) (N' : Str)
    (hciW : ciHasPrefixWord word W = true) (hWlen : W.length = word.length)
    (hS : ∀ x ∈ S, isJsWhitespace x = true) (hSlen : minWs ≤ S.length)
    (hn0 : isJsWhitespace n0 = false) (hN : ∀ x ∈ N', isJsWhitespace x = false)
    (u : Str) (hu : u = [] ∨ ∃ d t, u = d :: t ∧ isJsWhitespace d = true) :
    wordMatch word minWs (W ++ (S ++ (n0 :: (N' ++ u)))) =
      some (word.length + S.length + (N'.length + 1)) := by
  have hci := ciHasPrefixWord_append_of_exact word W (S ++ (n0 :: (N' ++ u))) hciW hWlen
  have e0 : List.drop word.length (W ++ (S ++ (n0 :: (N' ++ u)))) = S ++ (n0 :: (N' ++ u)) := by
    rw [← hWlen]
    exact List.drop_left W _
  have hSall : List.takeWhile isJsWhitespace S = S := by
    have hh := takeWhile_all_append isJsWhitespace S hS []
    simpa using hh
  have hl : leadWs word (W ++ (S ++ (n0 :: (N' ++ u)))) = S.length := by
    unfold leadWs
    rw [e0, takeWhile_append_cons_neg isJsWhitespace n0 hn0, hSall]
  have hd : afterWsPart word (W ++ (S ++ (n0 :: (N' ++ u)))) = n0 :: (N' ++ u) := by
    unfold afterWsPart
    rw [e0, dropWhile_all_append isJsWhitespace S hS (n0 :: (N' ++ u)),
      List.dropWhile_cons, if_neg (by simp [hn0])]
  have htwu : List.takeWhile (fun c => !(isJsWhitespace c)) u = [] := by
    rcases hu with rfl | ⟨d, t, rfl, hdw⟩
    · rfl
    · rw [List.takeWhile_cons, if_neg (by simp [hdw])]
  have hn : solidLen word (W ++ (S ++ (n0 :: (N' ++ u)))) = N'.length + 1 := by
    unfold solidLen
    rw [hd, List.takeWhile_cons, if_pos (by simp [hn0]),
      takeWhile_all_append _ N' (fun x hx => by simp [hN x hx]) u, htwu]
    simp
  unfold wordMatch
  rw [if_pos hci, hl, hn, if_pos ⟨hSlen, by omega⟩]

theorem ws_not_bearer_start : ∀ (d : Char) (t : Str), isJsWhitespace d = true →
    ciHasPrefixWord bearerWord (d :: t) = false := by
  intro d t hd
  simp only [isJsWhitespace, Bool.or_eq_true, beq_iff_eq] at hd
  have hw : bearerWord = 'b' :: "earer".data := rfl
  rw [hw]
  rcases hd with ((((rfl | rfl) | rfl) | rfl) | rfl) | rfl <;>
    exact ciHasPrefixWord_head_false _ (by decide)

theorem ws_not_auth_start : ∀ (d : Char) (t : Str), isJsWhitespace d = true →
    ciHasPrefixWord authorizationWord (d :: t) = false := by
  intro d t hd
  simp only [isJsWhitespace, Bool.or_eq_true, beq_iff_eq] at hd
  have hw : authorizationWord = 'a' :: "uthorization:".data := rfl
  rw [hw]
  rcases hd with ((((rfl | rfl) | rfl) | rfl) | rfl) | rfl <;>
    exact ciHasPrefixWord_head_false _ (by decide)

theorem bearerRepl_fire (u : Str)
    (hu : u = [] ∨ ∃ d t, u = d :: t ∧ isJsWhitespace d = true) :
    wordMatch bearerWord 1 (bearerRepl ++ u) = some bearerRepl.length := by
  have hsp : bearerRepl ++ u =
      "Bearer".data ++ ((' ' :: []) ++ ('[' :: ("REDACTED]".data ++ u))) := rfl
  rw [hsp]
  rw [wordMatch_marker_fire bearerWord "Bearer".data (' ' :: []) 1 '[' "REDACTED]".data
    (by decide) (by decide) (by decide) (by decide) (by decide) (by decide) u hu]
  decide

theorem authRepl_fire (u : Str)
    (hu : u = [] ∨ ∃ d t, u = d :: t ∧ isJsWhitespace d = true) :
    wordMatch authorizationWord 0 (authRepl ++ u) = some authRepl.length := by
  have hsp : authRepl ++ u =
      "Authorization:".data ++ ((' ' :: []) ++ ('[' :: ("REDACTED]".data ++ u))) := rfl
  rw [hsp]
  rw [wordMatch_marker_fire authorizationWord "Authorization:".data (' ' :: []) 0 '['
    "REDACTED]".data (by decide) (by decide) (by decide) (by decide) (by decide) (by decide) u hu]
  decide

theorem bearer_self_hybrid : ∀ j, 1 ≤ j → j < bearerWord.length →
    ciHasPrefixWord (List.drop j bearerWord) bearerRepl = false := by
  intro j h1 h2
  have h6 : bearerWord.length = 6 := rfl
  rw [h6] at h2
  interval_cases j <;> decide

theorem auth_self_hybrid : ∀ j, 1 ≤ j → j < authorizationWord.length →
    ciHasPrefixWord (List.drop j authorizationWord) authRepl = false := by
  intro j h1 h2
  have h14 : authorizationWord.length = 14 := rfl
  rw [h14] at h2
  interval_cases j <;> decide

theorem bearer_auth_hybrid : ∀ j, 1 ≤ j → j < bearerWord.length →
    ciHasPrefixWord (List.drop j bearerWord) authRepl = false := by
  intro j h1 h2
  have h6 : bearerWord.length = 6 := rfl
  rw [h6] at h2
  interval_cases j <;> decide

theorem auth_nostart_bearerRepl : noCiStartWithin authorizationWord bearerRepl = true := by
  decide

theorem bearer_nostart_authRepl : noCiStartWithin bearerWord authRepl = true := by
  decide

theorem bearer_nostart_bearerRepl_tail : ∀ j, 1 ≤ j → j < bearerRepl.length →
    noCiStartWithin bearerWord (List.drop j bearerRepl) = true := by
  intro j h1 h2
  have h17 : bearerRepl.length = 17 := rfl
  rw [h17] at h2
  interval_cases j <;> decide

/-- The bearer matcher fails at every strict tail of its own replacement
    text, whatever follows. -/
theorem bearerMatch_tail_none : ∀ j, 1 ≤ j → j < bearerRepl.length →
    ∀ u, bearerMatch (List.drop j bearerRepl ++ u) = none := by
  intro j h1 h2 u
  rw [bearerMatch_eq_wordMatch]
  have h0 := noCiStartWithin_spec (bearer_nostart_bearerRepl_tail j h1 h2) 1 0 ?_ u
  · simpa using h0
  · rw [List.length_drop]
    have h17 : bearerRepl.length = 17 := rfl
    omega

/-- Master lemma: the output of a word-pattern scrub pass scans to itself,
    so the pass is idempotent.  Kept positions keep failing by failure
    transfer, and each inserted replacement re-matches exactly to itself
    because it is always followed by whitespace or the end of the string. -/
theorem selfScan_scanRepl (word : Str) (minWs : Nat) (repl : Str)
    (hws : ∀ d t, isJsWhitespace d = true → ciHasPrefixWord word (d :: t) = false)
    (hr : ∃ r0 rs, repl = r0 :: rs ∧ isJsWhitespace r0 = false)
    (hhy : ∀ j, 1 ≤ j → j < word.length → ciHasPrefixWord (List.drop j word) repl = false)
    (hlen : word.length ≤ repl.length + 1)
    (hfire : ∀ u, (u = [] ∨ ∃ d t, u = d :: t ∧ isJsWhitespace d = true) →
      wordMatch word minWs (repl ++ u) = some repl.length) :
    ∀ s, SelfScan (wordMatch word minWs) repl (scanRepl (wordMatch word minWs) repl s) := by
  have hm2 : ∀ t k, wordMatch word minWs t = some k → k ≤ t.length :=
    fun t k hk => wordMatch_le_length hk
  have hhead : ∀ M r₂, M ≠ [] → wordMatch word minWs (M ++ r₂) = some M.length →
      ∃ m0 M', M = m0 :: M' ∧ isJsWhitespace m0 = false := by
    intro M r₂ hM hfm
    obtain ⟨hci, _, _, _⟩ := wordMatch_fire_elim hfm
    cases M with
    | nil => exact absurd rfl hM
    | cons m0 M' =>
      refine ⟨m0, M', rfl, ?_⟩
      cases hws0 : isJsWhitespace m0 with
      | false => rfl
      | true =>
        have hfalse := hws m0 (M' ++ r₂) hws0
        have hci' : ciHasPrefixWord word (m0 :: (M' ++ r₂)) = true := hci
        rw [hfalse] at hci'
        exact Bool.noConfusion hci'
  have hrpos : 1 ≤ repl.length := by
    obtain ⟨r0, rs, hr0, _⟩ := hr
    rw [hr0]
    simp
  have H : ∀ (fuel : Nat) (s : Str), s.length ≤ fuel →
      SelfScan (wordMatch word minWs) repl (scanRepl (wordMatch word minWs) repl s) := by
    intro fuel
    induction fuel with
    | zero =>
      intro s hs
      have hnil : s = [] := List.length_eq_zero.mp (Nat.le_zero.mp hs)
      subst hnil
      exact SelfScan.nil
    | succ f ih =>
      intro s hs
      match s with
      | [] => exact SelfScan.nil
      | c :: rest =>
        simp only [List.length_cons] at hs
        cases hmc : wordMatch word minWs (c :: rest) with
        | none =>
          rw [scanRepl_cons_none c rest hmc]
          refine SelfScan.keep c ?_ (ih rest (by omega))
          exact wordMatch_sim word minWs (wordMatch word minWs) repl hm2 hhead hr hhy hlen
            c rest hmc
        | some k =>
          cases k with
          | zero => exact absurd (wordMatch_pos hmc) (by omega)
          | succ n =>
            rw [scanRepl_cons_hit c rest hmc]
            have hnext := wordMatch_next_ws hmc
            rw [List.drop_succ_cons] at hnext
            have hout2 : scanRepl (wordMatch word minWs) repl (List.drop n rest) = [] ∨
                ∃ d t, scanRepl (wordMatch word minWs) repl (List.drop n rest) = d :: t ∧
                  isJsWhitespace d = true := by
              rcases hnext with hnil | ⟨d, t, hdt, hdw⟩
              · rw [hnil]
                exact Or.inl (scanRepl_nil _ _)
              · rw [hdt]
                have hnone : wordMatch word minWs (d :: t) = none :=
                  wordMatch_none_of_not_ci minWs (hws d t hdw)
                rw [scanRepl_cons_none d t hnone]
                exact Or.inr ⟨d, _, rfl, hdw⟩
            have hfired := hfire (scanRepl (wordMatch word minWs) repl (List.drop n rest)) hout2
            have hd17 : repl.length - 1 + 1 = repl.length := by omega
            refine SelfScan.fire (repl.length - 1) ?_ ?_ ?_
            · rw [hd17]
              exact hfired
            · rw [hd17, List.take_left]
            · rw [hd17, List.drop_left]
              exact ih (List.drop n rest) (by simp only [List.length_drop]; omega)
  intro s
  exact H s.length s (Nat.le_refl _)

/-- The bearer scrub pass produces a string that is a fixed point of the
    bearer scrub. -/
theorem selfScan_bearer_out (s : Str) :
    SelfScan bearerMatch bearerRepl (scanRepl bearerMatch bearerRepl s) := by
  rw [bearerMatch_eq_wordMatch]
  exact selfScan_scanRepl bearerWord 1 bearerRepl ws_not_bearer_start
    ⟨'B', "earer [REDACTED]".data, by decide, by decide⟩
    bearer_self_hybrid (by decide) bearerRepl_fire s

/-- The authorization scrub pass produces a string that is a fixed point of
    the authorization scrub. -/
theorem selfScan_auth_out (s : Str) :
    SelfScan authMatch authRepl (scanRepl authMatch authRepl s) := by
  rw [authMatch_eq_wordMatch]
  exact selfScan_scanRepl authorizationWord 0 authRepl ws_not_auth_start
    ⟨'A', "uthorization: [REDACTED]".data, by decide, by decide⟩
    auth_self_hybrid (by decide) authRepl_fire s

theorem authMatch_le (t : Str) (k : Nat) (hk : authMatch t = some k) : k ≤ t.length := by
  rw [authMatch_eq_wordMatch] at hk
  exact wordMatch_le_length hk

theorem authMatch_fire_head (M r₂ : Str) (hM : M ≠ [])
    (hfm : authMatch (M ++ r₂) = some M.length) :
    ∃ m0 M', M = m0 :: M' ∧ isJsWhitespace m0 = false := by
  rw [authMatch_eq_wordMatch] at hfm
  obtain ⟨hci, _, _, _⟩ := wordMatch_fire_elim hfm
  cases M with
  | nil => exact absurd rfl hM
  | cons m0 M' =>
    refine ⟨m0, M', rfl, ?_⟩
    cases hws0 : isJsWhitespace m0 with
    | false => rfl
    | true =>
      have hfalse := ws_not_auth_start m0 (M' ++ r₂) hws0
      have hci' : ciHasPrefixWord authorizationWord (m0 :: (M' ++ r₂)) = true := hci
      rw [hfalse] at hci'
      exact Bool.noConfusion hci'

/-- The authorization pass preserves bearer stability: scanning a
    bearer-stable string with the authorization scrub yields a string that is
    still bearer-stable.  Kept positions transfer by failure transfer, an
    authorization match can only split material the bearer matcher fails on,
    and bearer markers pass through the authorization scan untouched. -/
theorem selfScan_bearer_auth_fuel : ∀ (fuel : Nat) (Y : Str), Y.length ≤ fuel →
    SelfScan bearerMatch bearerRepl Y →
    SelfScan bearerMatch bearerRepl (scanRepl authMatch authRepl Y) := by
  intro fuel
  induction fuel with
  | zero =>
    intro Y hY h
    have hnil : Y = [] := List.length_eq_zero.mp (Nat.le_zero.mp hY)
    subst hnil
    exact SelfScan.nil
  | succ f ih =>
    intro Y hY h
    cases h with
    | nil => exact SelfScan.nil
    | keep c hbm hrest =>
      rename_i rest
      simp only [List.length_cons] at hY
      cases hma : authMatch (c :: rest) with
      | none =>
        rw [scanRepl_cons_none c rest hma]
        refine SelfScan.keep c ?_ (ih rest (by omega) hrest)
        rw [bearerMatch_eq_wordMatch] at hbm ⊢
        exact wordMatch_sim bearerWord 1 authMatch authRepl authMatch_le authMatch_fire_head
          ⟨'A', "uthorization: [REDACTED]".data, by decide, by decide⟩
          bearer_auth_hybrid (by decide) c rest hbm
      | some k =>
        cases k with
        | zero =>
          rw [authMatch_eq_wordMatch] at hma
          exact absurd (wordMatch_pos hma) (by omega)
        | succ n' =>
          rw [scanRepl_cons_hit c rest hma]
          have hY' : SelfScan bearerMatch bearerRepl (c :: rest) := SelfScan.keep c hbm hrest
          have hdropped := selfScan_drop bearerMatch_tail_none (n' + 1) hY'
          have hlen2 : (List.drop (n' + 1) (c :: rest)).length ≤ f := by
            simp only [List.length_drop, List.length_cons]
            omega
          have hrec := ih (List.drop (n' + 1) (c :: rest)) hlen2 hdropped
          have hd : List.drop n' rest = List.drop (n' + 1) (c :: rest) := by
            rw [List.drop_succ_cons]
          rw [hd]
          refine selfScan_keep_through bearerMatch bearerRepl authRepl _ (fun i hi => ?_) hrec
          rw [bearerMatch_eq_wordMatch]
          exact noCiStartWithin_spec bearer_nostart_authRepl 1 i hi _
    | fire n hbm htake hrest =>
      rw [bearerMatch_eq_wordMatch] at hbm
      have hk1 : n + 1 ≤ Y.length := wordMatch_le_length hbm
      have hB : 1 ≤ bearerRepl.length := by decide
      have h17 : n + 1 = bearerRepl.length := by
        have hlt := congrArg List.length htake
        rw [List.length_take] at hlt
        omega
      have hYdec : Y = bearerRepl ++ List.drop (n + 1) Y := by
        rw [← htake, List.take_append_drop]
      have hnext : List.drop (n + 1) Y = [] ∨
          ∃ d t, List.drop (n + 1) Y = d :: t ∧ isJsWhitespace d = true :=
        wordMatch_next_ws hbm
      have hkeep : scanRepl authMatch authRepl Y =
          bearerRepl ++ scanRepl authMatch authRepl (List.drop (n + 1) Y) := by
        conv_lhs => rw [hYdec]
        refine scanRepl_keep_through authMatch authRepl bearerRepl _ (fun i hi => ?_)
        rw [authMatch_eq_wordMatch]
        exact noCiStartWithin_spec auth_nostart_bearerRepl 0 i hi _
      rw [hkeep]
      have hO2 : scanRepl authMatch authRepl (List.drop (n + 1) Y) = [] ∨
          ∃ d t, scanRepl authMatch authRepl (List.drop (n + 1) Y) = d :: t ∧
            isJsWhitespace d = true := by
        rcases hnext with hnil | ⟨d, t, hdt, hdw⟩
        · rw [hnil]
          exact Or.inl (scanRepl_nil _ _)
        · rw [hdt]
          have hnone : authMatch (d :: t) = none := by
            rw [authMatch_eq_wordMatch]
            exact wordMatch_none_of_not_ci 0 (ws_not_auth_start d t hdw)
          rw [scanRepl_cons_none d t hnone]
          exact Or.inr ⟨d, _, rfl, hdw⟩
      have hrec := ih (List.drop (n + 1) Y) (by simp only [List.length_drop]; omega) hrest
      have hfireO := bearerRepl_fire (scanRepl authMatch authRepl (List.drop (n + 1) Y)) hO2
      have hd17 : bearerRepl.length - 1 + 1 = bearerRepl.length := by decide
      refine SelfScan.fire (bearerRepl.length - 1) ?_ ?_ ?_
      · rw [hd17, bearerMatch_eq_wordMatch]
        exact hfireO
      · rw [hd17, List.take_left]
      · rw [hd17, List.drop_left]
        exact hrec

theorem selfScan_bearer_through_auth {Y : Str}
    (h : SelfScan bearerMatch bearerRepl Y) :
    SelfScan bearerMatch bearerRepl (scanRepl authMatch authRepl Y) :=
  selfScan_bearer_auth_fuel Y.length Y (Nat.le_refl _) h

/- ── Claim theorems ──────────────────────────────────────────────────────── -/

/-- C1: registerTool(server, config, descriptor) returns false and performs no
    registration call exactly when the tier gate or the category filter
    rejects the descriptor; in every other case it appends exactly one tool to
    the server and returns true. -/
theorem spec2_C1_register_gate (server : List RegisteredTool) (config : AppConfig)
    (options : ToolRegistrationOptions) :
    (((registerTool server config options).1 = false ∧
      (registerTool server config options).2 = server) ↔
      ((config.accessTier = AccessTier.readOnly ∧ options.accessTier = AccessTier.full) ∨
       (∃ cats, config.categories = some cats ∧ options.category ∉ cats))) ∧
    (((registerTool server config options).1 = true ∧
      (registerTool server config options).2 =
        server ++ [mkRegisteredTool config options]) ↔
      ¬ ((config.accessTier = AccessTier.readOnly ∧ options.accessTier = AccessTier.full) ∨
         (∃ cats, config.categories = some cats ∧ options.category ∉ cats))) := by
  unfold registerTool
  by_cases h1 : config.accessTier = AccessTier.readOnly ∧ options.accessTier = AccessTier.full
  · have hb1 : (config.accessTier == AccessTier.readOnly &&
        options.accessTier == AccessTier.full) = true := by
      simp [h1.1, h1.2]
    rw [hb1]
    simp only [if_true]
    constructor
    · simp [h1]
    · constructor
      · rintro ⟨hcon, _⟩
        cases hcon
      · intro hno
        exact absurd (Or.inl h1) hno
  · have hb1 : (config.accessTier == AccessTier.readOnly &&
        options.accessTier == AccessTier.full) = false := by
      rcases not_and_or.mp h1 with hx | hx <;> simp [hx]
    rw [hb1]
    simp only [Bool.false_eq_true, if_false]
    by_cases h2 : ∃ cats, config.categories = some cats ∧ options.category ∉ cats
    · obtain ⟨cats, hcats, hnotin⟩ := h2
      have hb2 : ((config.categories.map
          (fun cats => !(cats.contains options.category))).getD false) = true := by
        rw [hcats]
        simp [List.elem_iff, hnotin]
      rw [hb2]
      simp only [if_true]
      constructor
      · simp
        exact Or.inr ⟨cats, hcats, hnotin⟩
      · constructor
        · rintro ⟨_, habs⟩
          exact absurd habs (by simp)
        · intro hno
          exact absurd (Or.inr ⟨cats, hcats, hnotin⟩) hno
    · have hb2 : ((config.categories.map
          (fun cats => !(cats.contains options.category))).getD false) = false := by
        cases hcats : config.categories with
        | none => rfl
        | some cats =>
          by_cases hin : options.category ∈ cats
          · simp [List.elem_iff, hin]
          · exact absurd ⟨cats, hcats, hin⟩ h2
      rw [hb2]
      simp only [Bool.false_eq_true, if_false]
      constructor
      · constructor
        · rintro ⟨hcon, _⟩
          cases hcon
        · rintro (hc | hc)
          · exact absurd hc h1
          · exact absurd hc h2
      · simp [h1, h2]

/-- C2: the execution shim maps handler success to exactly one text content
    item carrying the handler string with no error flag, and any handler
    rejection to exactly one text content item prefixed with Error: followed
    by the redacted rendering, with the error flag set; being a total
    function, it never lets an exception cross the shim boundary. -/
theorem spec2_C2_shim_envelope (config : AppConfig) (s : Str) (e : ThrownValue) :
    runWrappedHandler config (.success s) = { content := [s], isError := false } ∧
    runWrappedHandler config (.failure e) =
      { content := ["Error: ".data ++ sanitizeError e config], isError := true } ∧
    (runWrappedHandler config (.failure e)).content.length = 1 := by
  exact ⟨rfl, rfl, rfl⟩

/-- C5: sanitizeError is a total function of the thrown value: every failure
    path of the shim yields the redacted envelope, a non-Error throwable
    degrades to the fixed generic string, and a failure inside redaction
    (the body parse throwing) degrades to the sanitized status-line fallback
    instead of propagating. -/
theorem spec2_C5_sanitize_total (config : AppConfig) (e : ThrownValue) (v : Json)
    (st : Nat) (stx : Str) :
    (∃ out : CallToolResult, runWrappedHandler config (.failure e) = out ∧
      out.isError = true ∧
      out.content = ["Error: ".data ++ sanitizeError e config]) ∧
    sanitizeError (.nonError v) config = "An unknown error occurred".data ∧
    sanitizeError (.responseError st stx .failed) config =
      sanitizeMessage (statusLine st stx) config := by
  exact ⟨⟨_, rfl, rfl, rfl⟩, rfl, rfl⟩

/-- C9 counterexample: the object spread of an explicit options.annotations
    runs after the derived hints, so a full-tier descriptor carrying
    annotations with readOnlyHint true registers a read-only hint that is not
    equal to (accessTier = read-only). -/
theorem spec2_C9_counterexample :
    (let cfg : AppConfig := ⟨[], [], .full, none, .stdio, 3000, []⟩
     let opt : ToolRegistrationOptions :=
       ⟨"t", "d", .full, "core", some ⟨some true, none⟩, none, false,
        fun _ => .success []⟩
     (registerTool [] cfg opt).1 = true ∧
     ((registerTool [] cfg opt).2.map (fun t => t.annotations.readOnlyHint)) = [true] ∧
     (opt.accessTier == AccessTier.readOnly) = false) := by
  exact ⟨rfl, rfl, rfl⟩

/-- C9 amended: for every descriptor that passes the visibility check and
    carries no explicit annotations object, the registered annotations hold a
    read-only hint equal to (accessTier = read-only) and a destructive hint
    equal to membership of the destructive tag; an explicit annotations
    object overrides the derived hints. -/
theorem spec2_C9_annotations_amended (server : List RegisteredTool) (config : AppConfig)
    (options : ToolRegistrationOptions)
    (hvis : (registerTool server config options).1 = true)
    (hov : options.annotations = none) :
    (registerTool server config options).2 = server ++ [mkRegisteredTool config options] ∧
    (mkRegisteredTool config options).annotations.readOnlyHint =
      (options.accessTier == AccessTier.readOnly) ∧
    (mkRegisteredTool config options).annotations.destructiveHint =
      ((options.tags.getD []).contains "destructive") := by
  refine ⟨?_, ?_, ?_⟩
  · unfold registerTool at hvis ⊢
    split at hvis
    · cases hvis
    · split at hvis
      · cases hvis
      · rw [if_neg, if_neg] <;> simp_all
  · unfold mkRegisteredTool buildAnnotations
    rw [hov]
  · unfold mkRegisteredTool buildAnnotations
    rw [hov]

/-- C9 amended, witness: a concrete full-tier destructive descriptor without
    annotation overrides registers the derived hints. -/
theorem spec2_C9_witness :
    (let cfg : AppConfig := ⟨[], [], .full, none, .stdio, 3000, []⟩
     let opt : ToolRegistrationOptions :=
       ⟨"t", "d", .full, "core", none, some ["destructive"], false,
        fun _ => .success []⟩
     (registerTool [] cfg opt).2 = [] ++ [mkRegisteredTool cfg opt] ∧
     (mkRegisteredTool cfg opt).annotations.readOnlyHint = (opt.accessTier == AccessTier.readOnly) ∧
     (mkRegisteredTool cfg opt).annotations.destructiveHint =
       ((opt.tags.getD []).contains "destructive")) := by
  exact spec2_C9_annotations_amended [] _ _ rfl rfl

theorem strip_id_of_apiV3_suffix {l : Str} (h : apiV3 <:+ l) : stripTrailingSlashes l = l := by
  obtain ⟨x, hx⟩ := h
  unfold stripTrailingSlashes
  rw [← hx, List.reverse_append]
  have hrev : apiV3.reverse = '3' :: "v/ipa/".data := by decide
  rw [hrev, List.cons_append, List.dropWhile_cons]
  simp only [show ('3' == '/') = false from rfl, Bool.false_eq_true, if_false]
  rw [← List.cons_append, ← hrev, ← List.reverse_append, List.reverse_reverse]

theorem normalizeUrl_suffix (url : Str) : apiV3 <:+ normalizeUrl url := by
  unfold normalizeUrl
  by_cases h : apiV3.isSuffixOf (stripTrailingSlashes url) = true
  · rw [if_pos h]
    exact isSuffixOf_eq_true.mp h
  · rw [if_neg h]
    exact ⟨removeApiPartial (stripTrailingSlashes url), rfl⟩

theorem normalizeUrl_fixed {l : Str} (h : apiV3 <:+ l) : normalizeUrl l = l := by
  show (let normalized := stripTrailingSlashes l
        if List.isSuffixOf apiV3 normalized = true then normalized
        else removeApiPartial normalized ++ apiV3) = l
  rw [strip_id_of_apiV3_suffix h]
  rw [if_pos (isSuffixOf_eq_true.mpr h)]

theorem loadConfig_ok_url {env : Env} {cfg : AppConfig} (h : loadConfig env = .ok cfg) :
    ∃ raw, env.authentikUrl = some raw ∧ cfg.url = normalizeUrl raw.data := by
  unfold loadConfig at h
  dsimp only at h
  split at h
  · exact Except.noConfusion h
  rename_i raw henv
  refine ⟨raw, henv, ?_⟩
  split at h
  · exact Except.noConfusion h
  split at h
  · exact Except.noConfusion h
  split at h
  · exact Except.noConfusion h
  split at h
  · exact Except.noConfusion h
  split at h
  · exact Except.noConfusion h
  split at h
  · exact Except.noConfusion h
  cases h
  rfl

/-- C10: normalizeUrl always returns a string ending in /api/v3 (hence with no
    trailing slash), is idempotent, and loadConfig stores exactly the
    normalized form of the raw AUTHENTIK_URL value in config.url. -/
theorem spec2_C10_normalizeUrl (url : Str) (env : Env) (cfg : AppConfig) :
    apiV3 <:+ normalizeUrl url ∧
    (normalizeUrl url).getLast? ≠ some '/' ∧
    normalizeUrl (normalizeUrl url) = normalizeUrl url ∧
    (loadConfig env = .ok cfg →
      ∃ raw, env.authentikUrl = some raw ∧ cfg.url = normalizeUrl raw.data) := by
  have hsuf : apiV3 <:+ normalizeUrl url := normalizeUrl_suffix url
  have hlast : (normalizeUrl url).getLast? = some '3' := by
    obtain ⟨x, hx⟩ := hsuf
    rw [← hx]
    rw [List.getLast?_append_of_ne_nil]
    · decide
    · decide
  refine ⟨hsuf, ?_, normalizeUrl_fixed hsuf, fun h => loadConfig_ok_url h⟩
  rw [hlast]
  simp

/-- C10 witness: a concrete environment demonstrating normalization and the
    loadConfig link at a raw URL without the /api/v3 tail. -/
theorem spec2_C10_witness :
    apiV3 <:+ normalizeUrl "https://ak.example.com/".data ∧
    normalizeUrl (normalizeUrl "https://ak.example.com/".data) =
      normalizeUrl "https://ak.example.com/".data ∧
    (loadConfig ⟨some "https://ak.example.com/", some "tok", none, none, none, none, none⟩ =
        .ok ⟨normalizeUrl "https://ak.example.com/".data, "tok".data, .full, none,
             .stdio, 3000, "0.0.0.0".data⟩ →
      ∃ raw, (some "https://ak.example.com/" : Option String) = some raw ∧
        normalizeUrl "https://ak.example.com/".data = normalizeUrl raw.data) := by
  have h := spec2_C10_normalizeUrl "https://ak.example.com/".data
    ⟨some "https://ak.example.com/", some "tok", none, none, none, none, none⟩
    ⟨normalizeUrl "https://ak.example.com/".data, "tok".data, .full, none, .stdio, 3000,
     "0.0.0.0".data⟩
  exact ⟨h.1, h.2.2.1, h.2.2.2⟩

theorem sanitizeMessage_expand (msg : Str) (c : AppConfig) :
    sanitizeMessage msg c =
      scanRepl authMatch authRepl (scanRepl bearerMatch bearerRepl
        (if c.url ≠ [] then
           replaceAllLit c.url urlMarker
             (if c.token ≠ [] then replaceAllLit c.token redactedMarker msg else msg)
         else
           (if c.token ≠ [] then replaceAllLit c.token redactedMarker msg else msg))) := rfl

/-- C3 counterexample: with configured token RED, the replacement marker
    [REDACTED] itself resynthesizes the token, so the redacted output contains
    a literal occurrence of the configured token. -/
theorem spec2_C3_counterexample :
    (let cfg : AppConfig := ⟨"https://ak.example.com/api/v3".data, "RED".data, .full, none,
       .stdio, 3000, "0.0.0.0".data⟩
     sanitizeMessage "boom RED".data cfg = "boom [REDACTED]".data ∧
     containsSeq "RED".data (sanitizeMessage "boom RED".data cfg) = true) := by
  exact ⟨by decide, by decide⟩

/-- C3 amended: when the configured token and base URL do not overlap the
    replacement texts (no containment and no shared boundary fragments with
    [REDACTED], [AUTHENTIK_URL], Bearer [REDACTED], Authorization: [REDACTED]),
    the redacted output contains zero occurrences of the literal token and
    zero occurrences of the literal base URL, and the bearer/authorization
    pattern passes always run last, independent of the literal secrets. -/
theorem spec2_C3_redaction_amended (c : AppConfig) (msg : Str)
    (htok : c.token ≠ [])
    (hts : tokenScrubSafe c.token = true)
    (hus : c.url ≠ [] → urlScrubSafe c.url = true) :
    (¬ c.token <:+: sanitizeMessage msg c) ∧
    (c.url ≠ [] → ¬ c.url <:+: sanitizeMessage msg c) ∧
    sanitizeMessage msg c =
      scanRepl authMatch authRepl (scanRepl bearerMatch bearerRepl
        (if c.url ≠ [] then
           replaceAllLit c.url urlMarker (replaceAllLit c.token redactedMarker msg)
         else replaceAllLit c.token redactedMarker msg)) := by
  simp only [tokenScrubSafe, Bool.and_eq_true] at hts
  obtain ⟨⟨⟨ht1, ht2⟩, ht3⟩, ht4⟩ := hts
  have hexpand : sanitizeMessage msg c =
      scanRepl authMatch authRepl (scanRepl bearerMatch bearerRepl
        (if c.url ≠ [] then
           replaceAllLit c.url urlMarker (replaceAllLit c.token redactedMarker msg)
         else replaceAllLit c.token redactedMarker msg)) := by
    rw [sanitizeMessage_expand, if_pos htok]
  have h1 : ¬ c.token <:+: replaceAllLit c.token redactedMarker msg :=
    replaceAllLit_no_occurrence htok ht1 msg
  have h2 : ¬ c.token <:+:
      (if c.url ≠ [] then
         replaceAllLit c.url urlMarker (replaceAllLit c.token redactedMarker msg)
       else replaceAllLit c.token redactedMarker msg) := by
    by_cases hu : c.url ≠ []
    · rw [if_pos hu]
      exact scrub_no_new _ _ ht2 h1
    · rw [if_neg hu]
      exact h1
  refine ⟨?_, ?_, hexpand⟩
  · rw [hexpand]
    exact scrub_no_new _ _ ht4 (scrub_no_new _ _ ht3 h2)
  · intro hu
    have husafe := hus hu
    simp only [urlScrubSafe, Bool.and_eq_true] at husafe
    obtain ⟨⟨hu1, hu2⟩, hu3⟩ := husafe
    have g1 : ¬ c.url <:+:
        replaceAllLit c.url urlMarker (replaceAllLit c.token redactedMarker msg) :=
      replaceAllLit_no_occurrence hu hu1 _
    rw [hexpand, if_pos hu]
    exact scrub_no_new _ _ hu3 (scrub_no_new _ _ hu2 g1)

/-- C3 amended, witness: a non-overlapping token and URL are both fully
    scrubbed from a message containing each of them. -/
theorem spec2_C3_witness :
    (let cfg : AppConfig := ⟨"https://ak.example.com/api/v3".data, "SECRET_TOKEN".data,
       .full, none, .stdio, 3000, "0.0.0.0".data⟩
     let msg : Str :=
       "401 at https://ak.example.com/api/v3 using SECRET_TOKEN Authorization: Bearer xyz".data
     (¬ cfg.token <:+: sanitizeMessage msg cfg) ∧ (¬ cfg.url <:+: sanitizeMessage msg cfg)) := by
  have h := spec2_C3_redaction_amended
    ⟨"https://ak.example.com/api/v3".data, "SECRET_TOKEN".data, .full, none, .stdio, 3000,
     "0.0.0.0".data⟩
    "401 at https://ak.example.com/api/v3 using SECRET_TOKEN Authorization: Bearer xyz".data
    (by decide) (by decide) (fun _ => by decide)
  exact ⟨h.1, h.2.1 (by decide)⟩

/-- C8 counterexample: with configured token RED the scrub is not idempotent;
    the second pass tears apart the marker the first pass inserted. -/
theorem spec2_C8_counterexample :
    (let cfg : AppConfig := ⟨"https://ak.example.com/api/v3".data, "RED".data, .full, none,
       .stdio, 3000, "0.0.0.0".data⟩
     sanitizeMessage (sanitizeMessage "RED".data cfg) cfg ≠ sanitizeMessage "RED".data cfg ∧
     sanitizeMessage "RED".data cfg = "[REDACTED]".data ∧
     sanitizeMessage (sanitizeMessage "RED".data cfg) cfg = "[[REDACTED]ACTED]".data) := by
  exact ⟨by decide, by decide, by decide⟩

/-- A string free of secrets and of the two header patterns is a fixed point
    of sanitizeMessage. -/
theorem sanitize_fixpoint_aux (c : AppConfig) (Y : Str)
    (hbY : ciOccurs bearerWord Y = false) (haY : ciOccurs authorizationWord Y = false)
    (htokY : c.token ≠ [] → ¬ c.token <:+: Y)
    (hurlY : c.url ≠ [] → ¬ c.url <:+: Y) :
    sanitizeMessage Y c = Y := by
  rw [sanitizeMessage_expand]
  have hT : (if c.token ≠ [] then replaceAllLit c.token redactedMarker Y else Y) = Y := by
    by_cases htk : c.token ≠ []
    · rw [if_pos htk]
      exact replaceAllLit_id (htokY htk)
    · rw [if_neg htk]
  rw [hT]
  have hU : (if c.url ≠ [] then replaceAllLit c.url urlMarker Y else Y) = Y := by
    by_cases hu : c.url ≠ []
    · rw [if_pos hu]
      exact replaceAllLit_id (hurlY hu)
    · rw [if_neg hu]
  rw [hU]
  rw [scanRepl_id_of_no_fire Y (bearerMatch_none hbY)]
  exact scanRepl_id_of_no_fire Y (authMatch_none haY)

/-- C8 amended: whenever the configured token and URL do not overlap the
    replacement marker texts, the scrub is idempotent on every message: the
    second pass's literal scrubs find nothing (the secrets are gone from the
    first pass's output) and the two pattern passes re-match every inserted
    marker exactly to itself; without the overlap side condition idempotence
    fails (token RED). -/
theorem spec2_C8_idempotent_amended (c : AppConfig) (msg : Str)
    (hts : c.token ≠ [] → tokenScrubSafe c.token = true)
    (hus : c.url ≠ [] → urlScrubSafe c.url = true) :
    sanitizeMessage (sanitizeMessage msg c) c = sanitizeMessage msg c := by
  have hO : sanitizeMessage msg c =
      scanRepl authMatch authRepl (scanRepl bearerMatch bearerRepl
        (if c.url ≠ [] then
           replaceAllLit c.url urlMarker
             (if c.token ≠ [] then replaceAllLit c.token redactedMarker msg else msg)
         else (if c.token ≠ [] then replaceAllLit c.token redactedMarker msg else msg))) :=
    sanitizeMessage_expand msg c
  have htokO : c.token ≠ [] → ¬ c.token <:+: sanitizeMessage msg c := by
    intro htk
    have hsafe := hts htk
    simp only [tokenScrubSafe, Bool.and_eq_true] at hsafe
    obtain ⟨⟨⟨ht1, ht2⟩, ht3⟩, ht4⟩ := hsafe
    have habs : ¬ c.token <:+:
        (if c.token ≠ [] then replaceAllLit c.token redactedMarker msg else msg) := by
      rw [if_pos htk]
      exact replaceAllLit_no_occurrence htk ht1 msg
    have habs2 : ¬ c.token <:+:
        (if c.url ≠ [] then
           replaceAllLit c.url urlMarker
             (if c.token ≠ [] then replaceAllLit c.token redactedMarker msg else msg)
         else (if c.token ≠ [] then replaceAllLit c.token redactedMarker msg else msg)) := by
      by_cases hu : c.url ≠ []
      · rw [if_pos hu]
        exact scrub_no_new _ _ ht2 habs
      · rw [if_neg hu]
        exact habs
    rw [hO]
    exact scrub_no_new _ _ ht4 (scrub_no_new _ _ ht3 habs2)
  have hurlO : c.url ≠ [] → ¬ c.url <:+: sanitizeMessage msg c := by
    intro hu
    have hsafe := hus hu
    simp only [urlScrubSafe, Bool.and_eq_true] at hsafe
    obtain ⟨⟨hu1, hu2⟩, hu3⟩ := hsafe
    have habs : ¬ c.url <:+:
        (if c.url ≠ [] then
           replaceAllLit c.url urlMarker
             (if c.token ≠ [] then replaceAllLit c.token redactedMarker msg else msg)
         else (if c.token ≠ [] then replaceAllLit c.token redactedMarker msg else msg)) := by
      rw [if_pos hu]
      exact replaceAllLit_no_occurrence hu hu1 _
    rw [hO]
    exact scrub_no_new _ _ hu3 (scrub_no_new _ _ hu2 habs)
  have hbO : scanRepl bearerMatch bearerRepl (sanitizeMessage msg c) =
      sanitizeMessage msg c := by
    rw [hO]
    exact selfScan_fixed (selfScan_bearer_through_auth (selfScan_bearer_out _))
  have haO : scanRepl authMatch authRepl (sanitizeMessage msg c) =
      sanitizeMessage msg c := by
    rw [hO]
    exact selfScan_fixed (selfScan_auth_out _)
  rw [sanitizeMessage_expand (sanitizeMessage msg c) c]
  have h5 : (if c.token ≠ [] then
      replaceAllLit c.token redactedMarker (sanitizeMessage msg c)
    else sanitizeMessage msg c) = sanitizeMessage msg c := by
    by_cases htk : c.token ≠ []
    · rw [if_pos htk]
      exact replaceAllLit_id (htokO htk)
    · rw [if_neg htk]
  have h6 : (if c.url ≠ [] then
      replaceAllLit c.url urlMarker (sanitizeMessage msg c)
    else sanitizeMessage msg c) = sanitizeMessage msg c := by
    by_cases hu : c.url ≠ []
    · rw [if_pos hu]
      exact replaceAllLit_id (hurlO hu)
    · rw [if_neg hu]
  rw [h5, h6, hbO, haO]

/-- C8 amended, witness: a message containing the token, the URL, and live
    bearer and authorization header material is scrubbed idempotently under a
    non-overlapping token and URL. -/
theorem spec2_C8_witness :
    (let cfg : AppConfig := ⟨"https://ak.example.com/api/v3".data, "SECRET_TOKEN".data,
       .full, none, .stdio, 3000, "0.0.0.0".data⟩
     let msg : Str :=
       "Authorization: Bearer SECRET_TOKEN at https://ak.example.com/api/v3".data
     sanitizeMessage (sanitizeMessage msg cfg) cfg = sanitizeMessage msg cfg) := by
  exact spec2_C8_idempotent_amended
    ⟨"https://ak.example.com/api/v3".data, "SECRET_TOKEN".data, .full, none, .stdio, 3000,
     "0.0.0.0".data⟩
    "Authorization: Bearer SECRET_TOKEN at https://ak.example.com/api/v3".data
    (fun _ => by decide) (fun _ => by decide)

/-- C4 counterexample: in the providers family the handler performs no table
    check, so a discriminator outside the table fails with the generic
    JavaScript TypeError of the method lookup, which neither names the
    offending value nor enumerates the nine valid provider discriminators. -/
theorem spec2_C4_counterexample :
    providerDispatch "bogus_type" .create =
      .errorBeforeCall (notAFunctionMsg "providersApi") ∧
    containsSeq "bogus_type".data (notAFunctionMsg "providersApi") = false ∧
    containsSeq "oauth2".data (notAFunctionMsg "providersApi") = false := by
  exact ⟨by decide, by decide, by decide⟩

set_option maxRecDepth 100000 in
/-- C4 amended: the property-mappings and sources handlers reject an unknown
    discriminator before any backend call with an error naming the value and
    enumerating the family's valid discriminators; the stages, providers and
    policies handlers also fail before any backend call, but only with the
    generic method-lookup TypeError (their input schemas, not the handlers,
    enumerate the valid values). -/
theorem spec2_C4_dispatch_amended (t : String) (op : OpKind) :
    (pmapSdkFragment.lookup t = none →
      pmapDispatch t op = .errorBeforeCall (invalidPmapMsg t) ∧
      t.data <:+: invalidPmapMsg t ∧
      ∀ d ∈ pmapSdkFragment.map (fun e => e.1), d.data <:+: invalidPmapMsg t) ∧
    (sourceSdkFragment.lookup t = none →
      sourceDispatch t op = .errorBeforeCall (invalidSourceMsg t) ∧
      t.data <:+: invalidSourceMsg t ∧
      ∀ d ∈ sourceSdkFragment.map (fun e => e.1), d.data <:+: invalidSourceMsg t) ∧
    (providerSdkFragment.lookup t = none →
      providerDispatch t op = .errorBeforeCall (notAFunctionMsg "providersApi")) ∧
    (stageSdkFragment.lookup t = none →
      stageDispatch t op = .errorBeforeCall (notAFunctionMsg "stagesApi")) ∧
    (policySdkFragment.lookup t = none →
      policyDispatch t op = .errorBeforeCall (notAFunctionMsg "policiesApi")) := by
  refine ⟨?_, ?_, ?_, ?_, ?_⟩
  · intro hlk
    refine ⟨by unfold pmapDispatch; rw [hlk], ?_, ?_⟩
    · have hsplit : invalidPmapMsg t = "Invalid mapping_type \"".data ++ t.data ++
          ("\". Valid types: " ++ validTypesJoined pmapSdkFragment).data := by
        simp [invalidPmapMsg, String.data_append, List.append_assoc]
      rw [hsplit]
      exact List.infix_append _ _ _
    · have hval : ∀ d ∈ pmapSdkFragment.map (fun e => e.1),
          d.data <:+: (validTypesJoined pmapSdkFragment).data := by decide
      intro d hd
      have hsplit : invalidPmapMsg t = ("Invalid mapping_type \"" ++ t ++
          "\". Valid types: ").data ++ (validTypesJoined pmapSdkFragment).data := by
        simp [invalidPmapMsg, String.data_append, List.append_assoc]
      rw [hsplit]
      exact (hval d hd).trans (List.suffix_append _ _).isInfix
  · intro hlk
    refine ⟨by unfold sourceDispatch; rw [hlk], ?_, ?_⟩
    · have hsplit : invalidSourceMsg t = "Invalid source_type \"".data ++ t.data ++
          ("\". Valid types: " ++ validTypesJoined sourceSdkFragment).data := by
        simp [invalidSourceMsg, String.data_append, List.append_assoc]
      rw [hsplit]
      exact List.infix_append _ _ _
    · have hval : ∀ d ∈ sourceSdkFragment.map (fun e => e.1),
          d.data <:+: (validTypesJoined sourceSdkFragment).data := by decide
      intro d hd
      have hsplit : invalidSourceMsg t = ("Invalid source_type \"" ++ t ++
          "\". Valid types: ").data ++ (validTypesJoined sourceSdkFragment).data := by
        simp [invalidSourceMsg, String.data_append, List.append_assoc]
      rw [hsplit]
      exact (hval d hd).trans (List.suffix_append _ _).isInfix
  · intro hlk
    unfold providerDispatch unguardedDispatch
    rw [hlk]
    cases op <;> rfl
  · intro hlk
    unfold stageDispatch unguardedDispatch
    rw [hlk]
    cases op <;> rfl
  · intro hlk
    unfold policyDispatch unguardedDispatch
    rw [hlk]
    cases op <;> rfl

/-- C4 amended, witness: the sources family rejects the discriminator
    bogus_type before any backend call, naming it and listing all six valid
    source discriminators. -/
theorem spec2_C4_witness :
    sourceDispatch "bogus_type" .create = .errorBeforeCall (invalidSourceMsg "bogus_type") ∧
    "bogus_type".data <:+: invalidSourceMsg "bogus_type" ∧
    ∀ d ∈ sourceSdkFragment.map (fun e => e.1), d.data <:+: invalidSourceMsg "bogus_type" :=
  (spec2_C4_dispatch_amended "bogus_type" .create).2.1 (by decide)

set_option maxRecDepth 1000000 in
set_option maxHeartbeats 4000000 in
/-- C7: every discriminator declared in any of the five dispatch tables
    resolves, for all five operation kinds, to a backend call with a
    non-empty method name and (for create/update) a non-empty request-body
    key; in particular provider oauth2 create resolves to providersOauth2Create
    and nests the configuration under oAuth2ProviderRequest. -/
theorem spec2_C7_dispatch_complete :
    ((providerSdkFragment.all (fun e => allOpKinds.all (fun op =>
        resolvesOk (providerDispatch e.1 op)
          (op == OpKind.create || op == OpKind.partialUpdate)))) = true) ∧
    ((stageSdkFragment.all (fun e => allOpKinds.all (fun op =>
        resolvesOk (stageDispatch e.1 op)
          (op == OpKind.create || op == OpKind.partialUpdate)))) = true) ∧
    ((policySdkFragment.all (fun e => allOpKinds.all (fun op =>
        resolvesOk (policyDispatch e.1 op)
          (op == OpKind.create || op == OpKind.partialUpdate)))) = true) ∧
    ((sourceSdkFragment.all (fun e => allOpKinds.all (fun op =>
        resolvesOk (sourceDispatch e.1 op)
          (op == OpKind.create || op == OpKind.partialUpdate)))) = true) ∧
    ((pmapSdkFragment.all (fun e => allOpKinds.all (fun op =>
        resolvesOk (pmapDispatch e.1 op)
          (op == OpKind.create || op == OpKind.partialUpdate)))) = true) ∧
    providerDispatch "oauth2" .create =
      .backendCall "providersOauth2Create" (some "oAuth2ProviderRequest") := by
  exact ⟨by decide, by decide, by decide, by decide, by decide, by decide⟩

theorem jsJoinWith_strings (sep : Str) : ∀ vs : List Json,
    (vs.all (fun e => match e with | .jstr _ => true | _ => false) = true) →
    jsJoinWith sep vs =
      joinSep sep (vs.map (fun v => match v with | .jstr s => s | _ => [])) := by
  intro vs
  induction vs with
  | nil => intro _; rfl
  | cons e r ih =>
    intro h
    simp only [List.all_cons, Bool.and_eq_true] at h
    obtain ⟨he, hr⟩ := h
    match e, he with
    | .jstr s, _ =>
      match r with
      | [] => rfl
      | f :: r' =>
        show s ++ sep ++ jsJoinWith sep (f :: r') = _
        rw [List.map_cons]
        show _ = s ++ sep ++ joinSep sep ((f :: r').map (fun v => match v with | .jstr s => s | _ => []))
        exact congrArg (fun x => s ++ sep ++ x) (ih hr)

theorem renderEntry_scope {k : Str} {v : Json} (h : claimScopeValue v = true) :
    renderEntry (k, v) = specFieldRender (k, v) := by
  cases v with
  | jarr vs =>
    show k ++ ": ".data ++ jsJoinWith ", ".data vs = _
    rw [jsJoinWith_strings ", ".data vs h]
    rfl
  | jobj fs => simp [claimScopeValue] at h
  | jnull => rfl
  | jbool b => rfl
  | jnum n => rfl
  | jstr s => rfl

/-- C6 counterexample: a body that parses to a JSON array is not a JSON
    object, yet the code renders its index-keyed entries instead of the bare
    status-line fallback the claim requires. -/
theorem spec2_C6_counterexample :
    (let cfg : AppConfig := ⟨[], [], .full, none, .stdio, 3000, []⟩
     sanitizeError (.responseError 400 "Bad Request".data
         (.parsed (.jarr [.jstr "a".data]))) cfg = "400 Bad Request: 0: a".data ∧
     sanitizeError (.responseError 400 "Bad Request".data
         (.parsed (.jarr [.jstr "a".data]))) cfg ≠ "400 Bad Request".data) := by
  exact ⟨by decide, by decide⟩

/-- C6 amended: for parseable JSON object bodies whose values are scalars or
    arrays of strings, the redactor renders exactly the specified
    status-statusText-fields format; the bare fallback occurs exactly when
    the body parse throws or yields null or a non-object, non-array value,
    while a parsed array is rendered like an object through its index-keyed
    entries. -/
theorem spec2_C6_render_amended (c : AppConfig) (st : Nat) (stx : Str)
    (fields : List (Str × Json)) (j : Json)
    (hscope : fields.all (fun e => claimScopeValue e.2) = true) :
    sanitizeError (.responseError st stx (.parsed (.jobj fields))) c =
      sanitizeMessage (specRenderBackend st stx fields) c ∧
    sanitizeError (.responseError st stx .failed) c =
      sanitizeMessage (statusLine st stx) c ∧
    (objEntries j = none →
      sanitizeError (.responseError st stx (.parsed j)) c =
        sanitizeMessage (statusLine st stx) c) ∧
    (∀ es, sanitizeError (.responseError st stx (.parsed (.jarr es))) c =
      sanitizeMessage (statusLine st stx ++ ": ".data ++
        joinSep "; ".data ((enumPairsFrom 0 es).map renderEntry)) c) := by
  refine ⟨?_, rfl, ?_, fun es => rfl⟩
  · show sanitizeMessage (statusLine st stx ++ ": ".data ++
        joinSep "; ".data (fields.map renderEntry)) c = _
    have hmap : fields.map renderEntry = fields.map specFieldRender := by
      apply List.map_congr_left
      intro e he
      have hv : claimScopeValue e.2 = true := by
        rw [List.all_eq_true] at hscope
        exact hscope e he
      cases e with
      | mk k v => exact renderEntry_scope hv
    rw [hmap]
    rfl
  · intro h
    cases j with
    | jobj fs => exact absurd h (by simp [objEntries])
    | jarr es => exact absurd h (by simp [objEntries])
    | jnull => rfl
    | jbool b => rfl
    | jnum n => rfl
    | jstr s => rfl

/-- C6 amended, witness: the specification's own scenario, a 400 with body
    field name mapped to a one-element list, renders to the specified text. -/
theorem spec2_C6_witness :
    (let cfg : AppConfig := ⟨[], [], .full, none, .stdio, 3000, []⟩
     sanitizeError (.responseError 400 "Bad Request".data
         (.parsed (.jobj [("name".data, .jarr [.jstr "This field is required.".data])]))) cfg =
       sanitizeMessage (specRenderBackend 400 "Bad Request".data
         [("name".data, .jarr [.jstr "This field is required.".data])]) cfg ∧
     sanitizeError (.responseError 400 "Bad Request".data
         (.parsed (.jobj [("name".data, .jarr [.jstr "This field is required.".data])]))) cfg =
       "400 Bad Request: name: This field is required.".data) := by
  refine ⟨(spec2_C6_render_amended _ 400 "Bad Request".data _ .jnull (by decide)).1, by decide⟩
